import Mathlib

/-!
The Go language plugin of leetgo (`lang/go.go`).

A shallow embedding of the text transforms of the Go plugin: the type mapper
`convertToGoType`, the built-in modifiers `addNamedReturn`,
`changeReceiverName` and `addMod`, the test driver generators
`generateNormalTestCode` and `generateSystemDesignTestCode`, and the outcome
analysis of `HasInitialized` and the registry `goBuiltinModifiers`; of the
configuration check `verify` with the default configuration
(`config/config.go`); and of the configuration the init command writes
(`cmd/init.go`).

Strings.  A Go `string` is modelled as a `List Char`: the sequence of code
points of a string that is valid UTF-8 (the rendered templates and the question
metadata are decoded from JSON, which yields valid UTF-8).  Indices are code
point indices.  Every slice bound the code computes is either the position of
an ASCII character it searched for, or the length minus the length of an ASCII
suffix it has just tested, so the byte slice of the source and the code point
slice of the model denote the same text.  The one byte-level slice that is not
of this kind, `line[n : n+1]` in `changeReceiverName`, is modelled explicitly by
`toLowerByteOf`.

Panics.  A run-time panic (slice bounds or index out of range) is modelled as
`none`.  A function that returns `(T, error)` returns a pair of the value and
the optional message of the error.

Parameters.  What the two source files use but do not declare (`GetContent`,
`needsMod`, `removeUselessComments`, `testCaseOutputMark`, `vaultHeader`,
`Decrypt`) and the library function `strings.Title` are parameters of the
functions that use them.
-/

namespace Leetgo

/-- A Go string, as the list of its code points. -/
abbrev GoString := List Char

/-! ## The `strings` package, as far as the plugin uses it -/

/-- Go `strings.HasPrefix(s, prefix)`. -/
def hasPrefix (s pre : GoString) : Bool := pre.isPrefixOf s

/-- Go `strings.HasSuffix(s, suffix)`. -/
def hasSuffix (s suf : GoString) : Bool := suf.isSuffixOf s

/-- Go `strings.Split(s, "\n")`, for a one-character separator `sep`: the pieces
between the separators; a string without separator (the empty string included)
gives one piece. -/
def split (sep : Char) : GoString → List GoString
  | [] => [[]]
  | c :: cs =>
    if c = sep then [] :: split sep cs
    else
      match split sep cs with
      | [] => [[c]]
      | piece :: pieces => (c :: piece) :: pieces

/-- Go `strings.Join(elems, "\n")`, for a one-character separator `sep`. -/
def join (sep : Char) : List GoString → GoString
  | [] => []
  | [l] => l
  | l :: l' :: ls => l ++ sep :: join sep (l' :: ls)

/-- Go `strings.LastIndex(s, pat)`, for a one-character pattern `c`: the index of
the last occurrence of `c` in `s`, or `-1` when `c` does not occur. -/
def lastIndex (s : GoString) (c : Char) : Int :=
  match s with
  | [] => -1
  | x :: xs =>
    let r := lastIndex xs c
    if 0 ≤ r then r + 1 else if x = c then 0 else -1

/-- The slice expression `s[lo:hi]`: panics unless `0 ≤ lo ≤ hi ≤ len(s)`. -/
def slice (s : GoString) (lo hi : Int) : Option GoString :=
  if 0 ≤ lo ∧ lo ≤ hi ∧ hi ≤ (s.length : Int) then
    some ((s.drop lo.toNat).take (hi.toNat - lo.toNat))
  else none

/-- The slice expression `s[lo:]`: panics unless `0 ≤ lo ≤ len(s)`. -/
def sliceFrom (s : GoString) (lo : Int) : Option GoString :=
  slice s lo s.length

/-- The slice expression `s[:hi]`: panics unless `0 ≤ hi ≤ len(s)`. -/
def sliceTo (s : GoString) (hi : Int) : Option GoString :=
  slice s 0 hi

/-- Go `unicode.IsSpace`: the code points with the White_Space property. -/
def isSpace (c : Char) : Bool :=
  let n := c.toNat
  (9 ≤ n && n ≤ 13) || n = 0x20 || n = 0x85 || n = 0xA0 || n = 0x1680 ||
  (0x2000 ≤ n && n ≤ 0x200A) || n = 0x2028 || n = 0x2029 || n = 0x202F ||
  n = 0x205F || n = 0x3000

/-- Go `strings.TrimSpace(s)`: `s` without its leading and trailing white space. -/
def trimSpace (s : GoString) : GoString :=
  ((s.dropWhile isSpace).reverse.dropWhile isSpace).reverse

/-- Go `strings.Contains(s, substr)`. -/
def contains (s sub : GoString) : Bool :=
  s.tails.any (fun t => sub.isPrefixOf t)

/-- Go `strings.Count(s, pat)`, for a one-character pattern `c`. -/
def count (s : GoString) (c : Char) : Nat := s.count c

/-- Go `strings.Replace(s, old, new, 1)`, for a non-empty `old`: the first
occurrence of `old` in `s` is replaced by `new`. -/
def replaceFirst (s old new : GoString) : GoString :=
  if old.isPrefixOf s then new ++ s.drop old.length
  else
    match s with
    | [] => []
    | c :: cs => c :: replaceFirst cs old new

/-- Go `strings.ToLower(s[i : i+1])`, where `c` is the code point of `s` that
starts at byte `i`.  For an ASCII `c` the slice is the one-character string `c`
and `ToLower` lowers `A`..`Z`.  For any other `c` the slice is the lone first
byte of the UTF-8 encoding of `c`, which is not valid UTF-8, and `ToLower`
(through `strings.Map`) turns an invalid byte into U+FFFD. -/
def toLowerByteOf (c : Char) : GoString :=
  if c.toNat < 128 then [c.toLower] else [Char.ofNat 0xFFFD]

/-! ## `convertToGoType` -/

/-- The body of `convertToGoType`; `fuel` bounds the recursion depth. -/
def convertToGoTypeFuel : Nat → GoString → GoString
  | 0, typeName => typeName
  | fuel + 1, typeName =>
    if typeName = "integer".toList then "int".toList
    else if typeName = "long".toList then "int64".toList
    else if typeName = "double".toList then "float64".toList
    else if typeName = "boolean".toList then "bool".toList
    else if typeName = "character".toList then "byte".toList
    else if typeName = "void".toList then "".toList
    else if typeName = "TreeNode".toList then "*TreeNode".toList
    else if typeName = "ListNode".toList then "*ListNode".toList
    else if hasSuffix typeName "[]".toList then
      "[]".toList ++ convertToGoTypeFuel fuel (typeName.take (typeName.length - 2))
    else typeName

/-- The function `convertToGoType` converts a LeetCode type name to a Go type name.  Each
recursive call removes two characters, so `len(typeName) + 1` levels suffice
(see `convertToGoType_unfold`). -/
def convertToGoType (typeName : GoString) : GoString :=
  convertToGoTypeFuel (typeName.length + 1) typeName

/-! ## Question metadata (package `leetcode`, as far as the plugin reads it) -/

/-- A declared parameter: its name and its abstract type name. -/
structure Param where
  Name : GoString
  Typ : GoString

/-- The return specification: its abstract type name. -/
structure Return where
  Typ : GoString

/-- The output specification: the index of the parameter that carries the
answer when the function returns nothing. -/
structure Output where
  ParamIndex : Int

/-- The constructor of an interactive question. -/
structure Constructor where
  Params : List Param

/-- A callable method of an interactive question. -/
structure Method where
  Name : GoString
  Params : List Param
  Return : Return

/-- The metadata of a question; `Return` is a pointer in the source and may be
`nil`. -/
structure MetaData where
  Name : GoString
  Params : List Param
  Return : Option Return
  Output : Output
  SystemDesign : Bool
  Constructor : Constructor
  Methods : List Method

/-- The part of `leetcode.QuestionData` the plugin reads. -/
structure QuestionData where
  MetaData : MetaData

/-! ## The modifiers -/

/-- The expression
`strings.TrimSpace(line[rightBrace+1 : strings.LastIndex(line, "{")])` with
`rightBrace := strings.LastIndex(line, ")")`, which `addNamedReturn` and
`addMod` both evaluate: the text between the last `)` and the last `{` of the
line, trimmed.  The slice panics when there is no `{` at or after the position
that follows the last `)`. -/
def returnTypeText (line : GoString) : Option GoString :=
  let rightBrace := lastIndex line ')'
  (slice line (rightBrace + 1) (lastIndex line '{')).map trimSpace

/-- One iteration of the loop of `addNamedReturn` on the state
`(newLines, skipNext)`. -/
def addNamedReturnStep (q : QuestionData) (st : List GoString × Nat) (line : GoString) :
    Option (List GoString × Nat) :=
  let newLines := st.1
  let skipNext := st.2
  if skipNext > 0 then some (newLines, skipNext - 1)
  else if hasPrefix line "func ".toList then
    let rightBrace := lastIndex line ')'
    match returnTypeText line with
    | none => none
    | some returnType =>
      if returnType ≠ "".toList then
        if returnType = "bool".toList ∨ returnType = "string".toList then
          some (newLines ++ [line], skipNext)
        else if q.MetaData.SystemDesign && contains line "func Constructor".toList then
          some (newLines ++ [line, "\n\treturn ".toList ++ returnType ++ "\x7b\x7d".toList], 1)
        else
          match sliceTo line (rightBrace + 1) with
          | none => none
          | some head =>
            some (newLines ++
              [head ++ " (ans ".toList ++ returnType ++ ") \x7b".toList, "\n\treturn".toList], 1)
      else some (newLines ++ [line], skipNext)
  else some (newLines ++ [line], skipNext)

/-- The loop `for _, line := range lines` of `addNamedReturn`, from the state
`st`. -/
def addNamedReturnLoop (q : QuestionData) :
    List GoString → List GoString × Nat → Option (List GoString × Nat)
  | [], st => some st
  | line :: rest, st =>
    match addNamedReturnStep q st line with
    | none => none
    | some st' => addNamedReturnLoop q rest st'

/-- The modifier `addNamedReturn(code, q)`. -/
def addNamedReturn (code : GoString) (q : QuestionData) : Option GoString :=
  (addNamedReturnLoop q (split '\n' code) ([], 0)).map (fun st => join '\n' st.1)

/-- The body of the loop of `changeReceiverName` for one line: the new value of
`lines[i]`.  The slice `line[n : n+1]` panics when the line ends right after
the prefix; otherwise it is the first byte of the code point `c` at position
`n`, and `toLowerByteOf c` is its `strings.ToLower`. -/
def changeReceiverLine (line : GoString) : Option GoString :=
  if hasPrefix line "func (this *".toList then
    let n := "func (this *".toList.length
    match line.get? n with
    | none => none
    | some c => some (replaceFirst line "this".toList (toLowerByteOf c))
  else some line

/-- The loop `for i, line := range lines` of `changeReceiverName`. -/
def changeReceiverNameLoop : List GoString → Option (List GoString)
  | [] => some []
  | line :: rest =>
    match changeReceiverLine line with
    | none => none
    | some line' => (changeReceiverNameLoop rest).map (fun rest' => line' :: rest')

/-- The modifier `changeReceiverName(code, q)`. -/
def changeReceiverName (code : GoString) (_q : QuestionData) : Option GoString :=
  (changeReceiverNameLoop (split '\n' code)).map (join '\n')

/-- The result type text `addMod` recovers from a line starting with `func `:
with exactly one `(` on the line, the trimmed text between the last `)` and the
last `{`; otherwise the text after the last space between the last `(` and the
last `)`. -/
def addModReturnType (line : GoString) : Option GoString :=
  if count line '(' = 1 then returnTypeText line
  else
    match slice line (lastIndex line '(' + 1) (lastIndex line ')') with
    | none => none
    | some s => sliceFrom s (lastIndex s ' ' + 1)

/-- One iteration of the loop of `addMod` on the state `(newLines, returnType)`. -/
def addModStep (st : List GoString × GoString) (line : GoString) :
    Option (List GoString × GoString) :=
  let newLines := st.1
  let returnType := st.2
  if hasPrefix line "func ".toList then
    match addModReturnType line with
    | none => none
    | some returnType' =>
      some (newLines ++ [line, "\tconst mod int = 1e9 + 7\n".toList], returnType')
  else if hasPrefix line "\treturn".toList then
    if returnType = "int".toList ∨ returnType = "int64".toList ∨ returnType = "int32".toList then
      some (newLines ++ ["\tans = (ans%mod + mod) % mod".toList, line], returnType)
    else some (newLines ++ [line], returnType)
  else some (newLines ++ [line], returnType)

/-- The loop `for _, line := range lines` of `addMod`, from the state `st`. -/
def addModLoop : List GoString → List GoString × GoString → Option (List GoString × GoString)
  | [], st => some st
  | line :: rest, st =>
    match addModStep st line with
    | none => none
    | some st' => addModLoop rest st'

/-- The modifier `addMod(code, q)`.  The method `q.GetContent()` and the helper
`needsMod` are not part of the plugin file; they are parameters: `getContent q`
is the description text `GetContent` returns (its error is dropped by `addMod`)
and `needsMod` tells whether a description asks for a modulus. -/
def addMod (getContent : QuestionData → GoString) (needsMod : GoString → Bool)
    (code : GoString) (q : QuestionData) : Option GoString :=
  if q.MetaData.SystemDesign then some code
  else if !needsMod (getContent q) then some code
  else (addModLoop (split '\n' code) ([], "".toList)).map (fun st => join '\n' st.1)

/-- A non-interactive question without parameters, used in the examples. -/
def plainQuestion : QuestionData :=
  ⟨⟨"f".toList, [], none, ⟨0⟩, false, ⟨[]⟩, []⟩⟩

/-- An interactive (system design) question, used in the examples. -/
def designQuestion : QuestionData :=
  ⟨⟨"MyStack".toList, [], none, ⟨0⟩, true, ⟨[]⟩, []⟩⟩

/-- The text made of `k` copies of `s`. -/
def copies : Nat → GoString → GoString
  | 0, _ => []
  | k + 1, s => s ++ copies k s

/-- The lines whose declaration `addNamedReturn` leaves alone: they do not
start with `func `, or their return type text is `bool`, `string` or empty. -/
def keptByAddNamedReturn (line : GoString) : Prop :=
  hasPrefix line "func ".toList = true →
    ∃ T, returnTypeText line = some T ∧
      (T = "bool".toList ∨ T = "string".toList ∨ T = "".toList)

/-! ## The insertions of `addMod`, in the words of its specification -/

/-- The constant declaration line `addMod` inserts. -/
def modConstDecl : GoString := "\tconst mod int = 1e9 + 7".toList

/-- The guard line `addMod` inserts. -/
def modGuard : GoString := "\tans = (ans%mod + mod) % mod".toList

/-- The result type text `addMod` holds after the lines `before`: the one it
recovered from the most recent line starting with `func `, and the empty text
when there is no such line. -/
def recoveredResultType (before : List GoString) : GoString :=
  match (before.filter (fun l => hasPrefix l "func ".toList)).getLast? with
  | none => "".toList
  | some decl => (addModReturnType decl).getD "".toList

/-- The lines that stand for `line` in the result of `addMod`, where `before`
are the lines that precede it: a line starting with `func ` is followed by the
constant declaration and an empty line; a line starting with `\treturn` is
preceded by the guard exactly when the recovered result type is `int`, `int64`
or `int32`; any other line stands alone. -/
def addModBlock (before : List GoString) (line : GoString) : List GoString :=
  if hasPrefix line "func ".toList then [line, modConstDecl, "".toList]
  else if hasPrefix line "\treturn".toList ∧
      (recoveredResultType before = "int".toList ∨ recoveredResultType before = "int64".toList ∨
        recoveredResultType before = "int32".toList) then [modGuard, line]
  else [line]

/-- The blocks of all lines, each with the lines that precede it. -/
def addModBlocks (before : List GoString) : List GoString → List (List GoString)
  | [] => []
  | line :: rest => addModBlock before line :: addModBlocks (before ++ [line]) rest

/-! ## `HasInitialized` -/

/-- The method `HasInitialized(outDir)` as a function of the outcome of the
command `go list -m -json <module>`: `cmdErr` is the error of
`cmd.CombinedOutput()` (`none` for `nil`, otherwise its message) and `output`
the combined output.  The result is the pair `(bool, error)`, the error given
by its message. -/
def HasInitialized (cmdErr : Option GoString) (output : GoString) : Bool × Option GoString :=
  match cmdErr with
  | some err =>
    if contains output "not a known dependency".toList ||
        contains output "go.mod file not found".toList then
      (false, none)
    else (false, some ("go list failed: ".toList ++ err))
  | none => (true, none)

/-! ## The guard expression in Go arithmetic -/

/-- The constant `mod` of the inserted declaration, `1e9 + 7`. -/
def modulus : Int := 1000000007

/-- The value an `int64` holds after an arithmetic result `x`: two's complement
wrap-around. -/
def wrapInt64 (x : Int) : Int := (x + 2 ^ 63) % 2 ^ 64 - 2 ^ 63

/-- Go's remainder operator `%` on integers: the remainder of the division that
truncates toward zero, with the sign of the dividend. -/
def goRem (a b : Int) : Int := Int.tmod a b

/-- The value of the inserted expression `(ans%mod + mod) % mod` in 64-bit Go
arithmetic. -/
def modGuardValue (ans : Int) : Int :=
  wrapInt64 (goRem (wrapInt64 (wrapInt64 (goRem ans modulus) + modulus)) modulus)

/-! ## The configuration (`config/config.go`) -/

/-- The contest section. -/
structure ContestConfig where
  OutDir : GoString
  FilenameTemplate : GoString
  OpenInBrowser : Bool
  deriving DecidableEq

/-- The editor section. -/
structure Editor where
  Use : GoString
  Command : GoString
  Args : List GoString
  deriving DecidableEq

/-- A replaced block of the generated code. -/
structure Block where
  Name : GoString
  Template : GoString
  deriving DecidableEq

/-- A modifier of the generated code, built in (by name) or scripted. -/
structure Modifier where
  Name : GoString
  Script : GoString
  deriving DecidableEq

/-- The settings every language has. -/
structure BaseLangConfig where
  OutDir : GoString
  FilenameTemplate : GoString
  SeparateDescriptionFile : Bool
  Blocks : List Block
  Modifiers : List Modifier
  deriving DecidableEq

/-- The Go settings: the embedded base settings. -/
structure GoConfig where
  BaseLangConfig : BaseLangConfig
  deriving DecidableEq

/-- The code section. -/
structure CodeConfig where
  Lang : GoString
  FilenameTemplate : GoString
  SeparateDescriptionFile : Bool
  Blocks : List Block
  Modifiers : List Modifier
  Go : GoConfig
  Python : BaseLangConfig
  Cpp : BaseLangConfig
  Java : BaseLangConfig
  Rust : BaseLangConfig
  deriving DecidableEq

/-- The credentials section. -/
structure Credentials where
  From : GoString
  Session : GoString
  CsrfToken : GoString
  Username : GoString
  Password : GoString
  deriving DecidableEq

/-- The leetcode section. -/
structure LeetCodeConfig where
  Site : GoString
  Credentials : Credentials
  deriving DecidableEq

/-- The configuration. -/
structure Config where
  dir : GoString
  projectRoot : GoString
  Author : GoString
  Language : GoString
  Code : CodeConfig
  LeetCode : LeetCodeConfig
  Contest : ContestConfig
  Editor : Editor
  deriving DecidableEq

/-- The site constant `LeetCodeCN`. -/
def LeetCodeCN : GoString := "https://leetcode.cn".toList

/-- The site constant `LeetCodeUS`. -/
def LeetCodeUS : GoString := "https://leetcode.com".toList

/-- The language constant `ZH`. -/
def ZH : GoString := "zh".toList

/-- The language constant `EN`. -/
def EN : GoString := "en".toList

/-- The map `credentialFrom` of `verify`, with `false` for a missing key. -/
def credentialFrom (source : GoString) : Bool :=
  source = "browser".toList || source = "cookies".toList || source = "password".toList ||
    source = "none".toList

/-- The configuration `c` with the password replaced by `pw`. -/
def Config.setPassword (c : Config) (pw : GoString) : Config :=
  ⟨c.dir, c.projectRoot, c.Author, c.Language, c.Code,
    ⟨c.LeetCode.Site, ⟨c.LeetCode.Credentials.From, c.LeetCode.Credentials.Session,
      c.LeetCode.Credentials.CsrfToken, c.LeetCode.Credentials.Username, pw⟩⟩,
    c.Contest, c.Editor⟩

/-- The function `verify(c)`: the configuration after the call (the password
branch writes the decrypted password into it) and the returned error, given by
its message (`none` for `nil`).  The constant `vaultHeader` and the function
`Decrypt` are declared outside `config.go` and are parameters; `Decrypt`
returns the pair `(string, error)`. -/
def verify (vaultHeader : GoString) (Decrypt : GoString → GoString × Option GoString)
    (c : Config) : Config × Option GoString :=
  if c.Language ≠ ZH ∧ c.Language ≠ EN then
    (c, some ("invalid language: ".toList ++ c.Language))
  else if c.Code.Lang = "".toList then
    (c, some "code.lang is empty".toList)
  else if c.LeetCode.Site ≠ LeetCodeCN ∧ c.LeetCode.Site ≠ LeetCodeUS then
    (c, some ("invalid leetcode.site: ".toList ++ c.LeetCode.Site))
  else if !credentialFrom c.LeetCode.Credentials.From then
    (c, some ("invalid leetcode.credentials.from: ".toList ++ c.LeetCode.Credentials.From))
  else if c.LeetCode.Credentials.From = "cookies".toList ∧
      c.LeetCode.Credentials.Session = "".toList then
    (c, some "leetcode.credentials.session is empty".toList)
  else if c.LeetCode.Credentials.From = "cookies".toList ∧
      c.LeetCode.Credentials.CsrfToken = "".toList then
    (c, some "leetcode.credentials.csrftoken is empty".toList)
  else if c.LeetCode.Credentials.From = "password".toList then
    if c.LeetCode.Site = LeetCodeUS then
      (c, some "username/password authentication is not supported for leetcode.com".toList)
    else if c.LeetCode.Credentials.Username = "".toList then
      (c, some "leetcode.credentials.username is empty".toList)
    else if c.LeetCode.Credentials.Password = "".toList then
      (c, some "leetcode.credentials.password is empty".toList)
    else if !hasPrefix c.LeetCode.Credentials.Password vaultHeader then
      (c, some ("password is not encrypted, you need to run `leetgo config encrypt` " ++
        "before put it in config file").toList)
    else
      let pw := c.LeetCode.Credentials.Password
      if pw ≠ "".toList then
        match Decrypt pw with
        | (pw', some err) => (c.setPassword pw', some err)
        | (pw', none) => (c.setPassword pw', none)
      else (c, none)
  else (c, none)

/-- The base settings of a language for which `Default` only sets `OutDir`. -/
def baseLangDefault (outDir : GoString) : BaseLangConfig :=
  ⟨outDir, "".toList, false, [], []⟩

/-- The function `Default()`: the default configuration.  Fields the source
does not set have the zero value of their type. -/
def Default : Config :=
  ⟨"".toList, "".toList, "Bob".toList, ZH,
    ⟨"go".toList,
      "\x7b\x7b .Id | padWithZero 4 \x7d\x7d\x7b\x7b if .SlugIsMeaningful \x7d\x7d.\x7b\x7b .Slug \x7d\x7d\x7b\x7b end \x7d\x7d".toList,
      false, [],
      [⟨"removeUselessComments".toList, "".toList⟩],
      ⟨⟨"go".toList, "".toList, false, [],
        [⟨"removeUselessComments".toList, "".toList⟩,
          ⟨"changeReceiverName".toList, "".toList⟩,
          ⟨"addNamedReturn".toList, "".toList⟩,
          ⟨"addMod".toList, "".toList⟩]⟩⟩,
      baseLangDefault "python".toList, baseLangDefault "cpp".toList,
      baseLangDefault "java".toList, baseLangDefault "rust".toList⟩,
    ⟨LeetCodeCN, ⟨"browser".toList, "".toList, "".toList, "".toList, "".toList⟩⟩,
    ⟨"contest".toList,
      "\x7b\x7b .ContestShortSlug \x7d\x7d/\x7b\x7b .Id \x7d\x7d\x7b\x7b if .SlugIsMeaningful \x7d\x7d.\x7b\x7b .Slug \x7d\x7d\x7b\x7b end \x7d\x7d".toList,
      true⟩,
    ⟨"none".toList, "".toList, []⟩⟩

/-! ## The test drivers -/

/-- Go `strings.Join(elems, sep)`. -/
def joinStr (sep : GoString) : List GoString → GoString
  | [] => []
  | [l] => l
  | l :: l' :: ls => l ++ sep ++ joinStr sep (l' :: ls)

/-- The index expression `xs[i]` on a slice: panics unless `0 ≤ i < len(xs)`. -/
def index {α : Type} (xs : List α) (i : Int) : Option α :=
  if 0 ≤ i then xs.get? i.toNat else none

/-- The loop `for _, param := range q.MetaData.Params` of
`generateNormalTestCode` on the state `(code, paramNames)`. -/
def normalParamsLoop : List Param → GoString × List GoString → GoString × List GoString
  | [], st => st
  | param :: rest, st =>
    normalParamsLoop rest
      (st.1 ++ ("\t".toList ++ param.Name ++ " := Deserialize[".toList ++
          convertToGoType param.Typ ++ "](ReadLine(stdin))\n".toList),
        st.2 ++ [param.Name])

/-- The end of `generateNormalTestCode`: the print statement is appended to
`code` and the template is filled in. -/
def normalTestContent (testCaseOutputMark code : GoString) : GoString :=
  let code := code ++ ("\tfmt.Println(\"".toList ++ testCaseOutputMark ++
    " \" + Serialize(ans))".toList)
  "func main() \x7b\n\tstdin := bufio.NewReader(os.Stdin)\n".toList ++ code ++ "\n\x7d\n".toList

/-- The method `generateNormalTestCode(q)`.  The result is `none` when the
function panics, and otherwise the returned pair `(string, error)`, the error
given by its message (`none` for `nil`).  The constant `testCaseOutputMark` is
declared outside the plugin file and is a parameter. -/
def generateNormalTestCode (testCaseOutputMark : GoString) (q : QuestionData) :
    Option (GoString × Option GoString) :=
  let st := normalParamsLoop q.MetaData.Params ("".toList, [])
  let code := st.1
  let paramNames := st.2
  let returnsValue : Bool :=
    match q.MetaData.Return with
    | none => false
    | some r => r.Typ ≠ "void".toList
  if returnsValue then
    let code := code ++ ("\tans := ".toList ++ q.MetaData.Name ++ "(".toList ++
      joinStr ", ".toList paramNames ++ ")\n".toList)
    some (normalTestContent testCaseOutputMark code, none)
  else
    let code := code ++ ("\t".toList ++ q.MetaData.Name ++ "(".toList ++
      joinStr ", ".toList paramNames ++ ")\n".toList)
    match index paramNames q.MetaData.Output.ParamIndex with
    | none => none
    | some ansName =>
      let code := code ++ ("\tans := ".toList ++ ansName ++ "\n".toList)
      some (normalTestContent testCaseOutputMark code, none)

/-- The function `toGoFuncName(f)`, which is `strings.Title(f)`; the library
function is the parameter `Title`. -/
def toGoFuncName (Title : GoString → GoString) (f : GoString) : GoString := Title f

/-- The separators of `strings.Title` among the ASCII characters: everything
but letters, digits and the underscore. -/
def isSeparatorASCII (c : Char) : Bool := !(c.isAlphanum || c = '_')

/-- The mapping of `strings.Title`, with the previous character `prev`. -/
def titleLoop (prev : Char) : GoString → GoString
  | [] => []
  | c :: cs => (if isSeparatorASCII prev then c.toUpper else c) :: titleLoop c cs

/-- Go `strings.Title(s)` on ASCII text: the letters that begin a word are
mapped to upper case. -/
def titleASCII (s : GoString) : GoString := titleLoop ' ' s

/-- The loop `for i, param := range q.MetaData.Constructor.Params` of
`generateSystemDesignTestCode`, from index `i`, on the state
`(prepareCode, paramNames)`. -/
def constructorParamsLoop :
    List Param → Nat → GoString × List GoString → GoString × List GoString
  | [], _, st => st
  | param :: rest, i, st =>
    constructorParamsLoop rest (i + 1)
      (st.1 ++ ("\t".toList ++ param.Name ++ " := Deserialize[".toList ++
          convertToGoType param.Typ ++ "](constructorParams[".toList ++ Nat.toDigits 10 i ++
          "])\n".toList),
        st.2 ++ [param.Name])

/-- The loop `for i, param := range method.Params`, from index `i`, on the
state `(methodCall, methodParamNames)`. -/
def methodParamsLoop :
    List Param → Nat → GoString × List GoString → GoString × List GoString
  | [], _, st => st
  | param :: rest, i, st =>
    methodParamsLoop rest (i + 1)
      (st.1 ++ ("\t\t\t".toList ++ param.Name ++ " := Deserialize[".toList ++
          convertToGoType param.Typ ++ "](methodParams[".toList ++ Nat.toDigits 10 i ++
          "])\n".toList),
        st.2 ++ [param.Name])

/-- The body of the loop over the methods: the text `methodCall` of one
method. -/
def methodCallCode (Title : GoString → GoString) (method : Method) : GoString :=
  let methodCall := "\t\tcase \"".toList ++ method.Name ++ "\":\n".toList
  let methodCall :=
    if method.Params.length > 0 then
      methodCall ++ "\t\t\tmethodParams := MustSplitArray(params[i])\n".toList
    else methodCall
  let st := methodParamsLoop method.Params 0 (methodCall, [])
  let methodCall := st.1
  let methodParamNames := st.2
  if method.Return.Typ ≠ "".toList ∧ method.Return.Typ ≠ "void".toList then
    methodCall ++ ("\t\t\tans := Serialize(obj.".toList ++ toGoFuncName Title method.Name ++
      "(".toList ++ joinStr ", ".toList methodParamNames ++
      "))\n\t\t\toutput = append(output, ans)\n".toList)
  else
    let methodCall := methodCall ++ ("\t\t\tobj.".toList ++ toGoFuncName Title method.Name ++
      "(".toList ++ joinStr ", ".toList methodParamNames ++ ")\n".toList)
    methodCall ++ "\t\t\toutput = append(output, \"null\")\n".toList

/-- The loop `for _, method := range q.MetaData.Methods` on `callCode`. -/
def methodsLoop (Title : GoString → GoString) : List Method → GoString → GoString
  | [], callCode => callCode
  | method :: rest, callCode => methodsLoop Title rest (callCode ++ methodCallCode Title method)

/-- The template of `generateSystemDesignTestCode`, filled in. -/
def systemDesignTestContent (prepareCode callCode testCaseOutputMark : GoString) : GoString :=
  ("func main() \x7b\n\tstdin := bufio.NewReader(os.Stdin)\n" ++
    "\tops := Deserialize[[]string](ReadLine(stdin))\n" ++
    "\tparams := MustSplitArray(ReadLine(stdin))\n" ++
    "\toutput := make([]string, 0, len(ops))\n" ++
    "\toutput = append(output, \"null\")\n\n").toList ++ prepareCode ++
  "\n\n\tfor i := 1; i < len(ops); i++ \x7b\n\t\tswitch ops[i] \x7b\n".toList ++ callCode ++
  "\n\t\t\x7d\n\t\x7d\n\tfmt.Println(\"".toList ++ testCaseOutputMark ++
  " \" + JoinArray(output))\n\x7d\n".toList

/-- The method `generateSystemDesignTestCode(q)`.  The result is `none` when
the function panics, and otherwise the returned pair `(string, error)`. -/
def generateSystemDesignTestCode (Title : GoString → GoString) (testCaseOutputMark : GoString)
    (q : QuestionData) : Option (GoString × Option GoString) :=
  let st :=
    if q.MetaData.Constructor.Params.length > 0 then
      constructorParamsLoop q.MetaData.Constructor.Params 0
        ("\tconstructorParams := MustSplitArray(params[0])\n".toList, [])
    else ("".toList, [])
  let prepareCode := st.1 ++ ("\tobj := Constructor(".toList ++
    joinStr ", ".toList st.2 ++ ")".toList)
  let callCode := methodsLoop Title q.MetaData.Methods "".toList
  match sliceTo callCode ((callCode.length : Int) - 1) with
  | none => none
  | some callCode =>
    some (systemDesignTestContent prepareCode callCode testCaseOutputMark, none)

/-- The method `generateTestContent(q)`. -/
def generateTestContent (Title : GoString → GoString) (testCaseOutputMark : GoString)
    (q : QuestionData) : Option (GoString × Option GoString) :=
  if q.MetaData.SystemDesign then generateSystemDesignTestCode Title testCaseOutputMark q
  else generateNormalTestCode testCaseOutputMark q

/-! ## The drivers, line by line, in the words of the specification -/

/-- The text of the lines `ls`, each one ended by a line break. -/
def terminated (ls : List GoString) : GoString := (ls.map (fun l => l ++ ['\n'])).flatten

/-- The line that reads and deserializes the parameter `p` of a direct call. -/
def readParamLine (p : Param) : GoString :=
  "\t".toList ++ p.Name ++ " := Deserialize[".toList ++ convertToGoType p.Typ ++
    "](ReadLine(stdin))".toList

/-- The call `<name>(<parameter names joined by ", ">)`. -/
def callText (name : GoString) (params : List Param) : GoString :=
  name ++ "(".toList ++ joinStr ", ".toList (params.map (fun p => p.Name)) ++ ")".toList

/-- The sentinel print line: the token, one space, and the serialized answer
`value`. -/
def printLine (testCaseOutputMark value : GoString) : GoString :=
  "\tfmt.Println(\"".toList ++ testCaseOutputMark ++ " \" + ".toList ++ value ++ ")".toList

/-- The lines that deserialize the parameters by position, from position `i`,
out of the group `source`, with the indentation `indent`. -/
def positionalLines (indent source : GoString) : Nat → List Param → List GoString
  | _, [] => []
  | i, p :: ps =>
    (indent ++ p.Name ++ " := Deserialize[".toList ++ convertToGoType p.Typ ++ "](".toList ++
      source ++ "[".toList ++ Nat.toDigits 10 i ++ "])".toList) ::
      positionalLines indent source (i + 1) ps

/-- The lines of the branch of one method. -/
def methodBranchLines (Title : GoString → GoString) (m : Method) : List GoString :=
  ("\t\tcase \"".toList ++ m.Name ++ "\":".toList) ::
    ((if m.Params.length > 0 then ["\t\t\tmethodParams := MustSplitArray(params[i])".toList]
      else []) ++
    positionalLines "\t\t\t".toList "methodParams".toList 0 m.Params ++
    (if m.Return.Typ ≠ "".toList ∧ m.Return.Typ ≠ "void".toList then
      ["\t\t\tans := Serialize(obj.".toList ++ callText (toGoFuncName Title m.Name) m.Params ++
          ")".toList,
        "\t\t\toutput = append(output, ans)".toList]
    else
      ["\t\t\tobj.".toList ++ callText (toGoFuncName Title m.Name) m.Params,
        "\t\t\toutput = append(output, \"null\")".toList]))

/-- The lines that build the object of an interactive question. -/
def constructLines (params : List Param) : List GoString :=
  (if params.length > 0 then
    "\tconstructorParams := MustSplitArray(params[0])".toList ::
      positionalLines "\t".toList "constructorParams".toList 0 params
  else []) ++ ["\tobj := ".toList ++ callText "Constructor".toList params]

/-- The spec scenario: a class with `push(x)` and `pop()`. -/
def stackQuestion : QuestionData :=
  ⟨⟨"MyClass".toList, [], none, ⟨0⟩, true, ⟨[⟨"n".toList, "integer".toList⟩]⟩,
    [⟨"push".toList, [⟨"x".toList, "integer".toList⟩], ⟨"void".toList⟩⟩,
      ⟨"pop".toList, [], ⟨"integer".toList⟩⟩]⟩⟩

/-- A direct-call question with two parameters and an integer result. -/
def sumQuestion : QuestionData :=
  ⟨⟨"twoSum".toList, [⟨"nums".toList, "integer[]".toList⟩, ⟨"target".toList, "integer".toList⟩],
    some ⟨"integer[]".toList⟩, ⟨0⟩, false, ⟨[]⟩, []⟩⟩

/-- A direct-call question without result whose answer is its first parameter. -/
def rotateQuestion : QuestionData :=
  ⟨⟨"rotate".toList, [⟨"nums".toList, "integer[]".toList⟩, ⟨"k".toList, "integer".toList⟩],
    some ⟨"void".toList⟩, ⟨0⟩, false, ⟨[]⟩, []⟩⟩

/-- A direct-call question without result whose output parameter index is the
number of its parameters, one past the last valid index. -/
def badIndexQuestion : QuestionData :=
  ⟨⟨"rotate".toList, [⟨"nums".toList, "integer[]".toList⟩, ⟨"k".toList, "integer".toList⟩],
    some ⟨"void".toList⟩, ⟨2⟩, false, ⟨[]⟩, []⟩⟩

/-! ## The modifier registry and the init command -/

/-- The type `ModifierFunc`: a modifier takes the code and the question. -/
abbrev ModifierFunc := GoString → QuestionData → Option GoString

/-- The map `goBuiltinModifiers`, as the list of its entries.  The modifier
`removeUselessComments` is declared outside the plugin file and is a parameter,
like `GetContent` and `needsMod`, which `addMod` uses. -/
def goBuiltinModifiers (removeUselessComments : ModifierFunc)
    (getContent : QuestionData → GoString) (needsMod : GoString → Bool) :
    List (GoString × ModifierFunc) :=
  [("removeUselessComments".toList, removeUselessComments),
    ("changeReceiverName".toList, changeReceiverName),
    ("addNamedReturn".toList, addNamedReturn),
    ("addMod".toList, addMod getContent needsMod)]

/-- The method `c.ConfigDir()`: the directory, which is computed from the home
directory and stored on first use; `homeConfigDir` is the computed path
`filepath.Join(home, ".config", CmdName)`.  The result is the configuration
after the call and the returned path. -/
def Config.ConfigDir (homeConfigDir : GoString) (c : Config) : Config × GoString :=
  if c.dir = "".toList then
    (⟨homeConfigDir, c.projectRoot, c.Author, c.Language, c.Code, c.LeetCode, c.Contest,
      c.Editor⟩, homeConfigDir)
  else (c, c.dir)

/-- The assignments `cfg.LeetCode.Site = site` and `cfg.Language = language`. -/
def Config.setSiteLanguage (c : Config) (site language : GoString) : Config :=
  ⟨c.dir, c.projectRoot, c.Author, language, c.Code, ⟨site, c.LeetCode.Credentials⟩,
    c.Contest, c.Editor⟩

/-- The configuration `createConfigFiles` writes to a new global file: `cfg`,
on which `GlobalConfigFile()` has been called, with the site and the language
overridden by the template `initTemplate`. -/
def createConfigFilesGlobal (homeConfigDir initTemplate : GoString) (cfg : Config) : Config :=
  let site := cfg.LeetCode.Site
  let language := cfg.Language
  let sl : GoString × GoString :=
    if initTemplate = "us".toList then (LeetCodeUS, EN)
    else if initTemplate = "cn".toList then (LeetCodeCN, ZH)
    else (site, language)
  let cfg := (cfg.ConfigDir homeConfigDir).1
  cfg.setSiteLanguage sl.1 sl.2

/-- An interactive question that declares no method. -/
def noMethodQuestion : QuestionData :=
  ⟨⟨"Empty".toList, [], none, ⟨0⟩, true, ⟨[]⟩, []⟩⟩

/-! ## Lemmas on the string functions -/

theorem copies_succ_right (k : Nat) (s : GoString) : copies (k + 1) s = copies k s ++ s := by
  induction k with
  | zero => simp [copies]
  | succ k ih =>
    calc copies (k + 1 + 1) s = s ++ copies (k + 1) s := rfl
      _ = s ++ (copies k s ++ s) := by rw [ih]
      _ = (s ++ copies k s) ++ s := by rw [List.append_assoc]
      _ = copies (k + 1) s ++ s := rfl

theorem split_ne_nil (sep : Char) (s : GoString) : split sep s ≠ [] := by
  induction s with
  | nil => simp [split]
  | cons c cs ih =>
    unfold split
    by_cases h : c = sep
    · simp [h]
    · simp only [h, if_false]
      cases hsp : split sep cs with
      | nil => simp
      | cons piece pieces => simp

theorem join_cons_cons (sep : Char) (l l' : GoString) (ls : List GoString) :
    join sep (l :: l' :: ls) = l ++ sep :: join sep (l' :: ls) := rfl

theorem join_cons_of_ne_nil (sep : Char) (l : GoString) (ls : List GoString) (h : ls ≠ []) :
    join sep (l :: ls) = l ++ sep :: join sep ls := by
  cases ls with
  | nil => exact absurd rfl h
  | cons l' ls => rfl

theorem join_split (sep : Char) (s : GoString) : join sep (split sep s) = s := by
  induction s with
  | nil => simp [split, join]
  | cons c cs ih =>
    unfold split
    by_cases h : c = sep
    · simp only [h, if_true]
      rw [join_cons_of_ne_nil sep [] _ (split_ne_nil sep cs), ih]
      rfl
    · simp only [h, if_false]
      cases hsp : split sep cs with
      | nil => exact absurd hsp (split_ne_nil sep cs)
      | cons piece pieces =>
        rw [hsp] at ih
        cases pieces with
        | nil =>
          simp only [join] at ih ⊢
          rw [ih]
        | cons p ps =>
          rw [join_cons_cons] at ih ⊢
          rw [← ih]
          rfl

theorem split_of_not_mem (sep : Char) (l : GoString) (h : sep ∉ l) : split sep l = [l] := by
  induction l with
  | nil => rfl
  | cons c cs ih =>
    have hc : c ≠ sep := fun e => h (by simp [e])
    have hcs : sep ∉ cs := fun e => h (by simp [e])
    unfold split
    simp only [hc, if_false]
    rw [ih hcs]

theorem split_append_sep (sep : Char) (l rest : GoString) (h : sep ∉ l) :
    split sep (l ++ sep :: rest) = l :: split sep rest := by
  induction l with
  | nil =>
    show split sep (sep :: rest) = [] :: split sep rest
    simp [split]
  | cons c cs ih =>
    have hc : c ≠ sep := fun e => h (by simp [e])
    have hcs : sep ∉ cs := fun e => h (by simp [e])
    show split sep (c :: (cs ++ sep :: rest)) = (c :: cs) :: split sep rest
    simp [split, hc, ih hcs]

theorem split_join (sep : Char) (lines : List GoString) (hne : lines ≠ [])
    (h : ∀ l ∈ lines, sep ∉ l) : split sep (join sep lines) = lines := by
  induction lines with
  | nil => exact absurd rfl hne
  | cons l ls ih =>
    cases ls with
    | nil =>
      show split sep l = [l]
      exact split_of_not_mem sep l (h l (by simp))
    | cons l' ls' =>
      rw [join_cons_cons, split_append_sep sep l _ (h l (by simp))]
      rw [ih (by simp) (fun x hx => h x (List.mem_cons_of_mem _ hx))]

theorem not_mem_of_mem_split (sep : Char) (s l : GoString) (h : l ∈ split sep s) :
    sep ∉ l := by
  induction s generalizing l with
  | nil =>
    simp [split] at h
    subst h
    simp
  | cons c cs ih =>
    unfold split at h
    by_cases hc : c = sep
    · simp only [hc, if_true, List.mem_cons] at h
      rcases h with h | h
      · subst h; simp
      · exact ih l h
    · simp only [hc, if_false] at h
      cases hsp : split sep cs with
      | nil => exact absurd hsp (split_ne_nil sep cs)
      | cons piece pieces =>
        rw [hsp] at h ih
        simp only [List.mem_cons] at h
        rcases h with h | h
        · subst h
          have hp := ih piece (by simp)
          intro hmem
          simp only [List.mem_cons] at hmem
          rcases hmem with e | e
          · exact hc e.symm
          · exact hp e
        · exact ih l (List.mem_cons_of_mem _ h)

theorem join_append_cons (sep : Char) (a : List GoString) (x : GoString) (b : List GoString) :
    join sep (a ++ x :: b) = join sep (a ++ [x]) ++ (if b = [] then [] else sep :: join sep b) := by
  induction a with
  | nil =>
    cases b with
    | nil => simp [join]
    | cons y ys => simp [join]
  | cons l ls ih =>
    have h1 : ls ++ x :: b ≠ [] := by simp
    have h2 : ls ++ [x] ≠ [] := by simp
    rw [List.cons_append, List.cons_append, join_cons_of_ne_nil sep l _ h1,
      join_cons_of_ne_nil sep l _ h2, ih]
    simp

/-- An element with an inner separator joins like the two elements it is made
of. -/
theorem join_inner_sep (sep : Char) (a : List GoString) (x y : GoString) (b : List GoString) :
    join sep (a ++ (x ++ sep :: y) :: b) = join sep (a ++ x :: y :: b) := by
  induction a with
  | nil =>
    cases b with
    | nil => simp [join]
    | cons z zs => simp [join]
  | cons l ls ih =>
    have h1 : ls ++ (x ++ sep :: y) :: b ≠ [] := by simp
    have h2 : ls ++ x :: y :: b ≠ [] := by simp
    rw [List.cons_append, List.cons_append, join_cons_of_ne_nil sep l _ h1,
      join_cons_of_ne_nil sep l _ h2, ih]

/-! ## Lemmas on `convertToGoType` -/

theorem two_le_length_of_hasSuffix (t : GoString) (h : hasSuffix t "[]".toList = true) :
    2 ≤ t.length := by
  unfold hasSuffix at h
  rw [List.isSuffixOf_iff_suffix] at h
  exact h.length_le

theorem convertToGoTypeFuel_eq (n m : Nat) (t : GoString) (hn : t.length < n)
    (hm : t.length < m) : convertToGoTypeFuel n t = convertToGoTypeFuel m t := by
  induction n generalizing m t with
  | zero => omega
  | succ n ih =>
    cases m with
    | zero => omega
    | succ m =>
      simp only [convertToGoTypeFuel]
      by_cases hs : hasSuffix t "[]".toList = true
      · have h2 := two_le_length_of_hasSuffix t hs
        have hl : (t.take (t.length - 2)).length = t.length - 2 := by
          simp [List.length_take]
        rw [ih m (t.take (t.length - 2)) (by omega) (by omega)]
      · have hs' : hasSuffix t "[]".toList = false := by simpa using hs
        simp only [hs', Bool.false_eq_true, if_false]

/-- The recursion equation of `convertToGoType`, as the source states it. -/
theorem convertToGoType_unfold (typeName : GoString) :
    convertToGoType typeName =
      if typeName = "integer".toList then "int".toList
      else if typeName = "long".toList then "int64".toList
      else if typeName = "double".toList then "float64".toList
      else if typeName = "boolean".toList then "bool".toList
      else if typeName = "character".toList then "byte".toList
      else if typeName = "void".toList then "".toList
      else if typeName = "TreeNode".toList then "*TreeNode".toList
      else if typeName = "ListNode".toList then "*ListNode".toList
      else if hasSuffix typeName "[]".toList then
        "[]".toList ++ convertToGoType (typeName.take (typeName.length - 2))
      else typeName := by
  have key : ∀ (n : Nat) (t : GoString), convertToGoTypeFuel (n + 1) t =
      if t = "integer".toList then "int".toList
      else if t = "long".toList then "int64".toList
      else if t = "double".toList then "float64".toList
      else if t = "boolean".toList then "bool".toList
      else if t = "character".toList then "byte".toList
      else if t = "void".toList then "".toList
      else if t = "TreeNode".toList then "*TreeNode".toList
      else if t = "ListNode".toList then "*ListNode".toList
      else if hasSuffix t "[]".toList then
        "[]".toList ++ convertToGoTypeFuel n (t.take (t.length - 2))
      else t := fun _ _ => rfl
  unfold convertToGoType
  rw [key]
  by_cases hs : hasSuffix typeName "[]".toList = true
  · have h2 := two_le_length_of_hasSuffix typeName hs
    have hl : (typeName.take (typeName.length - 2)).length = typeName.length - 2 := by
      simp [List.length_take]
    rw [convertToGoTypeFuel_eq typeName.length ((typeName.take (typeName.length - 2)).length + 1)
      (typeName.take (typeName.length - 2)) (by omega) (by omega)]
  · have hs' : hasSuffix typeName "[]".toList = false := by simpa using hs
    simp only [hs', Bool.false_eq_true, if_false]

theorem convertToGoType_array (t : GoString) :
    convertToGoType (t ++ "[]".toList) = "[]".toList ++ convertToGoType t := by
  have hlast : (t ++ "[]".toList).getLast? = some ']' := by
    simp
  have hne : ∀ name : GoString, name.getLast? ≠ some ']' → t ++ "[]".toList ≠ name := by
    intro name hn e
    rw [e] at hlast
    exact hn hlast
  have hs : hasSuffix (t ++ "[]".toList) "[]".toList = true := by
    unfold hasSuffix
    rw [List.isSuffixOf_iff_suffix]
    exact List.suffix_append _ _
  have htake : (t ++ "[]".toList).take ((t ++ "[]".toList).length - 2) = t := by
    simp
  rw [convertToGoType_unfold, htake]
  rw [if_neg (hne _ (by decide)), if_neg (hne _ (by decide)), if_neg (hne _ (by decide)),
    if_neg (hne _ (by decide)), if_neg (hne _ (by decide)), if_neg (hne _ (by decide)),
    if_neg (hne _ (by decide)), if_neg (hne _ (by decide)), if_pos hs]

/-! ## Lemmas on the loop of `addNamedReturn` -/

theorem addNamedReturnLoop_kept (q : QuestionData) (lines acc : List GoString)
    (h : ∀ line ∈ lines, keptByAddNamedReturn line) :
    addNamedReturnLoop q lines (acc, 0) = some (acc ++ lines, 0) := by
  induction lines generalizing acc with
  | nil => simp [addNamedReturnLoop]
  | cons line rest ih =>
    have hstep : addNamedReturnStep q (acc, 0) line = some (acc ++ [line], 0) := by
      unfold addNamedReturnStep
      dsimp only
      rw [if_neg (Nat.lt_irrefl 0)]
      by_cases hf : hasPrefix line "func ".toList = true
      · obtain ⟨T, hT, hcase⟩ := h line (by simp) hf
        rw [if_pos hf, hT]
        dsimp only
        rcases hcase with e | e | e
        · subst e; rfl
        · subst e; rfl
        · subst e; rfl
      · rw [if_neg hf]
    simp only [addNamedReturnLoop, hstep]
    rw [ih (acc ++ [line]) (fun l hl => h l (List.mem_cons_of_mem _ hl))]
    simp

theorem sliceTo_of_returnTypeText (L T : GoString) (hT : returnTypeText L = some T) :
    sliceTo L (lastIndex L ')' + 1) = some (L.take (lastIndex L ')' + 1).toNat) := by
  unfold returnTypeText at hT
  simp only [Option.map_eq_some'] at hT
  obtain ⟨t, ht, _⟩ := hT
  unfold slice at ht
  by_cases hb : 0 ≤ lastIndex L ')' + 1 ∧ lastIndex L ')' + 1 ≤ lastIndex L '{' ∧
      lastIndex L '{' ≤ (L.length : Int)
  · unfold sliceTo slice
    have hb' : 0 ≤ (0 : Int) ∧ (0 : Int) ≤ lastIndex L ')' + 1 ∧
        lastIndex L ')' + 1 ≤ (L.length : Int) := ⟨le_refl _, hb.1, le_trans hb.2.1 hb.2.2⟩
    rw [if_pos hb']
    simp
  · rw [if_neg hb] at ht
    exact absurd ht (by simp)

/-! ## Lemmas on `changeReceiverName` -/

theorem mem_replaceFirst (s old new : GoString) (y : Char)
    (h : y ∈ replaceFirst s old new) : y ∈ s ∨ y ∈ new := by
  induction s with
  | nil =>
    unfold replaceFirst at h
    split_ifs at h with hp
    · simp at h
      exact Or.inr h
    · simp at h
  | cons c cs ih =>
    unfold replaceFirst at h
    split_ifs at h with hp
    · rw [List.mem_append] at h
      rcases h with h | h
      · exact Or.inr h
      · exact Or.inl (List.mem_of_mem_drop h)
    · rw [List.mem_cons] at h
      rcases h with h | h
      · exact Or.inl (by simp [h])
      · rcases ih h with h' | h'
        · exact Or.inl (List.mem_cons_of_mem _ h')
        · exact Or.inr h'

theorem toLower_eq_newline (c : Char) (h : c.toLower = '\n') : c = '\n' := by
  unfold Char.toLower at h
  dsimp only at h
  split_ifs at h with hr
  · exfalso
    obtain ⟨n, hn⟩ : ∃ n, c.toNat = n := ⟨_, rfl⟩
    rw [hn] at h hr
    obtain ⟨h1, h2⟩ := hr
    have h1' : 65 ≤ n := h1
    have h2' : n ≤ 90 := h2
    interval_cases n <;> exact absurd h (by decide)
  · exact h

theorem newline_not_mem_toLowerByteOf (c : Char) (hc : c ≠ '\n') :
    '\n' ∉ toLowerByteOf c := by
  unfold toLowerByteOf
  split_ifs with h
  · intro hm
    rw [List.mem_singleton] at hm
    exact hc (toLower_eq_newline c hm.symm)
  · decide

theorem exists_cons_of_hasPrefix (line pre : GoString) (hp : hasPrefix line pre = true)
    (hne : line ≠ pre) : ∃ c rest, line = pre ++ c :: rest := by
  unfold hasPrefix at hp
  rw [List.isPrefixOf_iff_prefix] at hp
  obtain ⟨t, ht⟩ := hp
  cases t with
  | nil => exact absurd (by simpa using ht.symm) hne
  | cons c rest => exact ⟨c, rest, ht.symm⟩

theorem changeReceiverLine_receiver (c : Char) (rest : GoString) :
    changeReceiverLine ("func (this *".toList ++ c :: rest) =
      some (replaceFirst ("func (this *".toList ++ c :: rest) "this".toList (toLowerByteOf c)) := by
  have hp : hasPrefix ("func (this *".toList ++ c :: rest) "func (this *".toList = true := by
    unfold hasPrefix
    rw [List.isPrefixOf_iff_prefix]
    exact List.prefix_append _ _
  unfold changeReceiverLine
  rw [if_pos hp]
  rfl

theorem changeReceiverLine_other (line : GoString)
    (hp : hasPrefix line "func (this *".toList = false) : changeReceiverLine line = some line := by
  unfold changeReceiverLine
  rw [hp]
  rfl

theorem changeReceiverLine_isSome (line : GoString) (hne : line ≠ "func (this *".toList) :
    changeReceiverLine line = some ((changeReceiverLine line).getD line) := by
  by_cases hp : hasPrefix line "func (this *".toList = true
  · obtain ⟨c, rest, e⟩ := exists_cons_of_hasPrefix line _ hp hne
    subst e
    rw [changeReceiverLine_receiver]
    rfl
  · have hp' : hasPrefix line "func (this *".toList = false := by simpa using hp
    rw [changeReceiverLine_other line hp']
    rfl

theorem changeReceiverNameLoop_map (lines : List GoString)
    (hne : ∀ line ∈ lines, line ≠ "func (this *".toList) :
    changeReceiverNameLoop lines =
      some (lines.map (fun line => (changeReceiverLine line).getD line)) := by
  induction lines with
  | nil => rfl
  | cons line rest ih =>
    unfold changeReceiverNameLoop
    rw [changeReceiverLine_isSome line (hne line (by simp))]
    dsimp only
    rw [ih (fun l hl => hne l (List.mem_cons_of_mem _ hl))]
    rfl

theorem newline_not_mem_changeReceiverLine (line : GoString) (hl : '\n' ∉ line) :
    '\n' ∉ (changeReceiverLine line).getD line := by
  by_cases hne : line = "func (this *".toList
  · subst hne
    decide
  · by_cases hp : hasPrefix line "func (this *".toList = true
    · obtain ⟨c, rest, e⟩ := exists_cons_of_hasPrefix line _ hp hne
      have hc : c ≠ '\n' := by
        intro ec
        apply hl
        rw [e, ec]
        simp
      rw [e, changeReceiverLine_receiver]
      rw [← e]
      intro hm
      rcases mem_replaceFirst _ _ _ _ hm with h | h
      · exact hl h
      · exact newline_not_mem_toLowerByteOf c hc h
    · have hp' : hasPrefix line "func (this *".toList = false := by simpa using hp
      rw [changeReceiverLine_other line hp']
      exact hl

/-! ## Lemmas on the loop of `addMod` -/

theorem recoveredResultType_append_func (before : List GoString) (line : GoString)
    (hf : hasPrefix line "func ".toList = true) :
    recoveredResultType (before ++ [line]) = (addModReturnType line).getD "".toList := by
  unfold recoveredResultType
  rw [List.filter_append, List.filter_cons_of_pos (by simpa using hf), List.filter_nil,
    List.getLast?_append]
  rfl

theorem recoveredResultType_append_other (before : List GoString) (line : GoString)
    (hf : hasPrefix line "func ".toList = false) :
    recoveredResultType (before ++ [line]) = recoveredResultType before := by
  unfold recoveredResultType
  rw [List.filter_append, List.filter_cons_of_neg (by simpa using hf), List.filter_nil,
    List.append_nil]

theorem addModLoop_blocks (lines : List GoString) :
    ∀ (before acc : List GoString),
      (∀ line ∈ lines, hasPrefix line "func ".toList = true →
        (addModReturnType line).isSome = true) →
      ∃ out rt, addModLoop lines (acc, recoveredResultType before) = some (out, rt) ∧
        join '\n' out = join '\n' (acc ++ (addModBlocks before lines).flatten) := by
  induction lines with
  | nil =>
    intro before acc _
    exact ⟨acc, recoveredResultType before, rfl, by simp [addModBlocks]⟩
  | cons line rest ih =>
    intro before acc hdef
    have hrest : ∀ l ∈ rest, hasPrefix l "func ".toList = true →
        (addModReturnType l).isSome = true :=
      fun l hl => hdef l (List.mem_cons_of_mem _ hl)
    by_cases hf : hasPrefix line "func ".toList = true
    · obtain ⟨rt', hrt⟩ := Option.isSome_iff_exists.mp (hdef line (by simp) hf)
      have hstep : addModStep (acc, recoveredResultType before) line =
          some (acc ++ [line, "\tconst mod int = 1e9 + 7\n".toList],
            recoveredResultType (before ++ [line])) := by
        unfold addModStep
        dsimp only
        rw [if_pos hf, hrt, recoveredResultType_append_func before line hf, hrt]
        rfl
      obtain ⟨out, rt, hloop, hjoin⟩ :=
        ih (before ++ [line]) (acc ++ [line, "\tconst mod int = 1e9 + 7\n".toList]) hrest
      refine ⟨out, rt, ?_, ?_⟩
      · simp only [addModLoop, hstep]
        exact hloop
      · rw [hjoin]
        have hblock : addModBlock before line = [line, modConstDecl, "".toList] := by
          unfold addModBlock
          rw [if_pos hf]
        have h := join_inner_sep '\n' (acc ++ [line]) modConstDecl []
          (addModBlocks (before ++ [line]) rest).flatten
        have e1 : acc ++ [line, "\tconst mod int = 1e9 + 7\n".toList] ++
            (addModBlocks (before ++ [line]) rest).flatten =
            acc ++ [line] ++ (modConstDecl ++ '\n' :: []) ::
              (addModBlocks (before ++ [line]) rest).flatten := by
          have e0 : "\tconst mod int = 1e9 + 7\n".toList = modConstDecl ++ '\n' :: [] := by decide
          rw [e0]
          simp
        have e2 : acc ++ (addModBlocks before (line :: rest)).flatten =
            acc ++ [line] ++ modConstDecl :: [] ::
              (addModBlocks (before ++ [line]) rest).flatten := by
          simp only [addModBlocks, hblock, List.flatten_cons]
          simp
        rw [e1, e2, h]
    · have hf' : hasPrefix line "func ".toList = false := by simpa using hf
      have hstep : addModStep (acc, recoveredResultType before) line =
          some (acc ++ addModBlock before line, recoveredResultType (before ++ [line])) := by
        unfold addModStep addModBlock
        dsimp only
        rw [if_neg hf, if_neg hf, recoveredResultType_append_other before line hf']
        by_cases hr : hasPrefix line "\treturn".toList = true
        · rw [if_pos hr]
          by_cases hi : recoveredResultType before = "int".toList ∨
              recoveredResultType before = "int64".toList ∨
              recoveredResultType before = "int32".toList
          · rw [if_pos hi, if_pos ⟨hr, hi⟩]
            rfl
          · rw [if_neg hi, if_neg (fun h => hi h.2)]
        · rw [if_neg hr, if_neg (fun h => hr h.1)]
      obtain ⟨out, rt, hloop, hjoin⟩ :=
        ih (before ++ [line]) (acc ++ addModBlock before line) hrest
      refine ⟨out, rt, ?_, ?_⟩
      · simp only [addModLoop, hstep]
        exact hloop
      · rw [hjoin]
        simp only [addModBlocks, List.flatten_cons, List.append_assoc]

theorem addMod_eq_blocks (getContent : QuestionData → GoString) (needsMod : GoString → Bool)
    (code : GoString) (q : QuestionData)
    (hq : q.MetaData.SystemDesign = false) (hm : needsMod (getContent q) = true)
    (hdef : ∀ line ∈ split '\n' code, hasPrefix line "func ".toList = true →
      (addModReturnType line).isSome = true) :
    addMod getContent needsMod code q =
      some (join '\n' (addModBlocks [] (split '\n' code)).flatten) := by
  obtain ⟨out, rt, hloop, hjoin⟩ := addModLoop_blocks (split '\n' code) [] [] hdef
  have h0 : recoveredResultType [] = "".toList := rfl
  rw [h0] at hloop
  unfold addMod
  rw [hq, hm, hloop]
  simp only [Bool.false_eq_true, if_false, Bool.not_true, Option.map_some']
  rw [hjoin]
  rfl

theorem addModBlocks_forall₂ (lines : List GoString) :
    ∀ before : List GoString,
      List.Forall₂ (fun line block =>
        (hasPrefix line "func ".toList = true → block = [line, modConstDecl, "".toList]) ∧
        (hasPrefix line "func ".toList = false → block = [line] ∨ block = [modGuard, line]))
        lines (addModBlocks before lines) := by
  induction lines with
  | nil =>
    intro before
    exact List.Forall₂.nil
  | cons line rest ih =>
    intro before
    refine List.Forall₂.cons ⟨?_, ?_⟩ (ih (before ++ [line]))
    · intro hf
      unfold addModBlock
      rw [if_pos hf]
    · intro hf
      unfold addModBlock
      rw [hf]
      simp only [Bool.false_eq_true, if_false]
      split_ifs
      · exact Or.inr rfl
      · exact Or.inl rfl

/-! ## Lemmas on the guard expression -/

theorem goRem_modulus_bounds (ans : Int) :
    -modulus < goRem ans modulus ∧ goRem ans modulus < modulus ∧
      goRem ans modulus % modulus = ans % modulus := by
  unfold goRem modulus
  cases ans with
  | ofNat n =>
    have h : (Int.ofNat n).tmod 1000000007 = ((n % 1000000007 : Nat) : Int) := rfl
    rw [h]
    have h' : (Int.ofNat n) = (n : Int) := rfl
    rw [h']
    omega
  | negSucc n =>
    have h : (Int.negSucc n).tmod 1000000007 = -(((n + 1) % 1000000007 : Nat) : Int) := rfl
    rw [h]
    have h' : (Int.negSucc n) = -((n : Int) + 1) := rfl
    rw [h']
    omega

/-! ## Lemmas on the test drivers -/

theorem terminated_cons (l : GoString) (ls : List GoString) :
    terminated (l :: ls) = l ++ '\n' :: terminated ls := by
  simp [terminated]

theorem terminated_append (xs ys : List GoString) :
    terminated (xs ++ ys) = terminated xs ++ terminated ys := by
  simp [terminated]

theorem join_append_empty_line (xs : List GoString) :
    join '\n' (xs ++ [[]]) = terminated xs := by
  induction xs with
  | nil => rfl
  | cons l ls ih =>
    rw [List.cons_append, join_cons_of_ne_nil '\n' l _ (by simp), ih, terminated_cons]

theorem terminated_eq_join (xs : List GoString) (h : xs ≠ []) :
    terminated xs = join '\n' xs ++ ['\n'] := by
  induction xs with
  | nil => exact absurd rfl h
  | cons l ls ih =>
    cases ls with
    | nil => simp [terminated, join]
    | cons l' ls' =>
      rw [terminated_cons, ih (by simp), join_cons_cons]
      simp

theorem normalParamsLoop_eq (ps : List Param) (st : GoString × List GoString) :
    normalParamsLoop ps st =
      (st.1 ++ terminated (ps.map readParamLine), st.2 ++ ps.map (fun p => p.Name)) := by
  induction ps generalizing st with
  | nil => simp [normalParamsLoop, terminated]
  | cons p ps ih =>
    rw [normalParamsLoop, ih]
    simp [terminated_cons, readParamLine, List.append_assoc]

theorem constructorParamsLoop_eq (ps : List Param) (i : Nat) (st : GoString × List GoString) :
    constructorParamsLoop ps i st =
      (st.1 ++ terminated (positionalLines "\t".toList "constructorParams".toList i ps),
        st.2 ++ ps.map (fun p => p.Name)) := by
  induction ps generalizing i st with
  | nil => simp [constructorParamsLoop, positionalLines, terminated]
  | cons p ps ih =>
    rw [constructorParamsLoop, ih]
    simp [terminated_cons, positionalLines, List.append_assoc]

theorem methodParamsLoop_eq (ps : List Param) (i : Nat) (st : GoString × List GoString) :
    methodParamsLoop ps i st =
      (st.1 ++ terminated (positionalLines "\t\t\t".toList "methodParams".toList i ps),
        st.2 ++ ps.map (fun p => p.Name)) := by
  induction ps generalizing i st with
  | nil => simp [methodParamsLoop, positionalLines, terminated]
  | cons p ps ih =>
    rw [methodParamsLoop, ih]
    simp [terminated_cons, positionalLines, List.append_assoc]

theorem methodCallCode_eq (Title : GoString → GoString) (m : Method) :
    methodCallCode Title m = terminated (methodBranchLines Title m) := by
  unfold methodCallCode methodBranchLines
  simp only [methodParamsLoop_eq]
  split_ifs <;>
    simp [terminated_cons, terminated_append, callText, List.append_assoc, terminated]

theorem methodsLoop_eq (Title : GoString → GoString) (ms : List Method) (callCode : GoString) :
    methodsLoop Title ms callCode =
      callCode ++ terminated ((ms.map (methodBranchLines Title)).flatten) := by
  induction ms generalizing callCode with
  | nil => simp [methodsLoop, terminated]
  | cons m ms ih =>
    rw [methodsLoop, ih, methodCallCode_eq]
    simp [terminated_append, List.append_assoc]

theorem sliceTo_append_singleton (s : GoString) (c : Char) :
    sliceTo (s ++ [c]) (((s ++ [c]).length : Int) - 1) = some s := by
  unfold sliceTo slice
  have hlen : (((s ++ [c]).length : Int) - 1) = (s.length : Int) := by
    simp
  rw [hlen]
  have hb : (0 : Int) ≤ 0 ∧ (0 : Int) ≤ (s.length : Int) ∧
      (s.length : Int) ≤ ((s ++ [c]).length : Int) := by
    refine ⟨le_refl _, by omega, ?_⟩
    simp
  rw [if_pos hb]
  simp

theorem normalTestContent_eq (mark : GoString) (ls : List GoString) :
    normalTestContent mark (terminated ls) =
      join '\n' (["func main() \x7b".toList, "\tstdin := bufio.NewReader(os.Stdin)".toList] ++ ls ++
        [printLine mark "Serialize(ans)".toList, "\x7d".toList, "".toList]) := by
  have h := join_append_empty_line
    (["func main() \x7b".toList, "\tstdin := bufio.NewReader(os.Stdin)".toList] ++ ls ++
        [printLine mark "Serialize(ans)".toList, "\x7d".toList])
  have e : ["func main() \x7b".toList, "\tstdin := bufio.NewReader(os.Stdin)".toList] ++ ls ++
        [printLine mark "Serialize(ans)".toList, "\x7d".toList, "".toList] =
      ["func main() \x7b".toList, "\tstdin := bufio.NewReader(os.Stdin)".toList] ++ ls ++
        [printLine mark "Serialize(ans)".toList, "\x7d".toList] ++ [[]] := by
    simp
  rw [e, h]
  unfold normalTestContent
  simp [terminated_append, terminated_cons, printLine, terminated, List.append_assoc]

theorem generateNormalTestCode_value (mark : GoString) (q : QuestionData) (r : Return)
    (hr : q.MetaData.Return = some r) (hv : r.Typ ≠ "void".toList) :
    generateNormalTestCode mark q = some (join '\n'
      (["func main() \x7b".toList, "\tstdin := bufio.NewReader(os.Stdin)".toList] ++
        (q.MetaData.Params.map readParamLine ++
          ["\tans := ".toList ++ callText q.MetaData.Name q.MetaData.Params]) ++
        [printLine mark "Serialize(ans)".toList, "\x7d".toList, "".toList]), none) := by
  unfold generateNormalTestCode
  simp only [normalParamsLoop_eq, hr]
  have hd : decide (r.Typ ≠ "void".toList) = true := by simpa using hv
  rw [hd, if_pos rfl, ← normalTestContent_eq]
  congr 3
  simp [terminated_append, terminated_cons, callText, terminated, List.append_assoc]

theorem generateNormalTestCode_output (mark : GoString) (q : QuestionData) (p : Param)
    (hr : q.MetaData.Return = none ∨ ∃ r, q.MetaData.Return = some r ∧ r.Typ = "void".toList)
    (hp : index q.MetaData.Params q.MetaData.Output.ParamIndex = some p) :
    generateNormalTestCode mark q = some (join '\n'
      (["func main() \x7b".toList, "\tstdin := bufio.NewReader(os.Stdin)".toList] ++
        (q.MetaData.Params.map readParamLine ++
          ["\t".toList ++ callText q.MetaData.Name q.MetaData.Params,
            "\tans := ".toList ++ p.Name]) ++
        [printLine mark "Serialize(ans)".toList, "\x7d".toList, "".toList]), none) := by
  have hname : index (q.MetaData.Params.map (fun p => p.Name)) q.MetaData.Output.ParamIndex
      = some p.Name := by
    unfold index at hp ⊢
    split_ifs at hp ⊢ with h0
    · rw [List.get?_eq_getElem?] at hp ⊢
      rw [List.getElem?_map, hp]
      rfl
  have hfalse : (match q.MetaData.Return with
      | none => false
      | some r => decide (r.Typ ≠ "void".toList)) = false := by
    rcases hr with h | ⟨r, h, hv⟩
    · rw [h]
    · rw [h]
      simp [hv]
  unfold generateNormalTestCode
  simp only [normalParamsLoop_eq, List.nil_append, hfalse, Bool.false_eq_true, if_false, hname]
  rw [← normalTestContent_eq]
  congr 3
  simp [terminated_append, terminated_cons, callText, terminated, List.append_assoc]

theorem generateNormalTestCode_panic (mark : GoString) (q : QuestionData)
    (hr : q.MetaData.Return = none ∨ ∃ r, q.MetaData.Return = some r ∧ r.Typ = "void".toList)
    (hidx : q.MetaData.Output.ParamIndex < 0 ∨
      (q.MetaData.Params.length : Int) ≤ q.MetaData.Output.ParamIndex) :
    generateNormalTestCode mark q = none := by
  have hname : index (q.MetaData.Params.map (fun p => p.Name)) q.MetaData.Output.ParamIndex
      = none := by
    unfold index
    split_ifs with h0
    · rw [List.get?_eq_none]
      simp only [List.length_map]
      omega
    · rfl
  have hfalse : (match q.MetaData.Return with
      | none => false
      | some r => decide (r.Typ ≠ "void".toList)) = false := by
    rcases hr with h | ⟨r, h, hv⟩
    · rw [h]
    · rw [h]
      simp [hv]
  unfold generateNormalTestCode
  simp only [normalParamsLoop_eq, List.nil_append, hfalse, Bool.false_eq_true, if_false, hname]

set_option maxRecDepth 100000 in
theorem systemDesignTestContent_eq (prepareCode mark : GoString) (P C : List GoString)
    (hP : prepareCode ++ ['\n'] = terminated P) (hC : C ≠ []) :
    systemDesignTestContent prepareCode (join '\n' C) mark =
      join '\n'
        (["func main() \x7b".toList, "\tstdin := bufio.NewReader(os.Stdin)".toList,
            "\tops := Deserialize[[]string](ReadLine(stdin))".toList,
            "\tparams := MustSplitArray(ReadLine(stdin))".toList,
            "\toutput := make([]string, 0, len(ops))".toList,
            "\toutput = append(output, \"null\")".toList, "".toList] ++
          P ++
          ["".toList, "\tfor i := 1; i < len(ops); i++ \x7b".toList,
            "\t\tswitch ops[i] \x7b".toList] ++
          C ++
          ["\t\t\x7d".toList, "\t\x7d".toList, printLine mark "JoinArray(output)".toList,
            "\x7d".toList, "".toList]) := by
  have e : (["func main() \x7b".toList, "\tstdin := bufio.NewReader(os.Stdin)".toList,
            "\tops := Deserialize[[]string](ReadLine(stdin))".toList,
            "\tparams := MustSplitArray(ReadLine(stdin))".toList,
            "\toutput := make([]string, 0, len(ops))".toList,
            "\toutput = append(output, \"null\")".toList, "".toList] ++
          P ++
          ["".toList, "\tfor i := 1; i < len(ops); i++ \x7b".toList,
            "\t\tswitch ops[i] \x7b".toList] ++
          C ++
          ["\t\t\x7d".toList, "\t\x7d".toList, printLine mark "JoinArray(output)".toList,
            "\x7d".toList, "".toList]) =
      (["func main() \x7b".toList, "\tstdin := bufio.NewReader(os.Stdin)".toList,
            "\tops := Deserialize[[]string](ReadLine(stdin))".toList,
            "\tparams := MustSplitArray(ReadLine(stdin))".toList,
            "\toutput := make([]string, 0, len(ops))".toList,
            "\toutput = append(output, \"null\")".toList, "".toList] ++
          P ++
          ["".toList, "\tfor i := 1; i < len(ops); i++ \x7b".toList,
            "\t\tswitch ops[i] \x7b".toList] ++
          C ++
          ["\t\t\x7d".toList, "\t\x7d".toList, printLine mark "JoinArray(output)".toList,
            "\x7d".toList]) ++ [[]] := by
    simp
  rw [e, join_append_empty_line]
  simp only [terminated_append]
  rw [← hP, terminated_eq_join C hC]
  unfold systemDesignTestContent
  simp [terminated_cons, printLine, terminated, List.append_assoc]

theorem prepareCode_eq (params : List Param) :
    (if params.length > 0 then
        constructorParamsLoop params 0
          ("\tconstructorParams := MustSplitArray(params[0])\n".toList, [])
      else ("".toList, [])).1 ++
      ("\tobj := Constructor(".toList ++
        joinStr ", ".toList
          (if params.length > 0 then
            constructorParamsLoop params 0
              ("\tconstructorParams := MustSplitArray(params[0])\n".toList, [])
          else ("".toList, [])).2 ++ ")".toList) ++ ['\n']
      = terminated (constructLines params) := by
  unfold constructLines
  cases params with
  | nil => simp [terminated, callText]
  | cons p ps =>
    have hpos : (p :: ps).length > 0 := by simp
    rw [if_pos hpos, constructorParamsLoop_eq]
    simp [terminated_cons, terminated_append, callText, terminated, List.append_assoc]

theorem methodBranchLines_flatten_ne_nil (Title : GoString → GoString) (ms : List Method)
    (h : ms ≠ []) : (ms.map (methodBranchLines Title)).flatten ≠ [] := by
  cases ms with
  | nil => exact absurd rfl h
  | cons m ms => simp [methodBranchLines]

theorem titleLoop_of_not_separator (prev : Char) (s : GoString)
    (hprev : isSeparatorASCII prev = false) (hs : ∀ x ∈ s, isSeparatorASCII x = false) :
    titleLoop prev s = s := by
  induction s generalizing prev with
  | nil => rfl
  | cons c cs ih =>
    rw [titleLoop, hprev, ih c (hs c (by simp)) (fun x hx => hs x (List.mem_cons_of_mem _ hx))]
    rfl

/-! ## Lemmas on `lastIndex`, `slice` and `split` for composed texts -/

theorem lastIndex_bounds (s : GoString) (c : Char) :
    -1 ≤ lastIndex s c ∧ lastIndex s c < (s.length : Int) := by
  induction s with
  | nil => simp [lastIndex]
  | cons x xs ih =>
    unfold lastIndex
    dsimp only
    split_ifs <;> simp <;> omega

theorem lastIndex_append (a b : GoString) (c : Char) :
    lastIndex (a ++ b) c =
      if 0 ≤ lastIndex b c then (a.length : Int) + lastIndex b c else lastIndex a c := by
  induction a with
  | nil =>
    have hb := lastIndex_bounds b c
    split_ifs with h
    · simp
    · simp [lastIndex]
      omega
  | cons x xs ih =>
    rw [List.cons_append, lastIndex, ih]
    by_cases hb : 0 ≤ lastIndex b c
    · have h0 : 0 ≤ (xs.length : Int) + lastIndex b c := by omega
      simp only [if_pos hb, if_pos h0]
      simp
      omega
    · simp only [if_neg hb]
      rw [lastIndex]

theorem slice_append_left (a b : GoString) (i j : Int) (hi : 0 ≤ i) (hij : i ≤ j)
    (hj : j ≤ (b.length : Int)) :
    slice (a ++ b) ((a.length : Int) + i) ((a.length : Int) + j) = slice b i j := by
  unfold slice
  have h1 : 0 ≤ (a.length : Int) + i ∧ (a.length : Int) + i ≤ (a.length : Int) + j ∧
      (a.length : Int) + j ≤ ((a ++ b).length : Int) := by
    refine ⟨by omega, by omega, ?_⟩
    simp
    omega
  rw [if_pos h1, if_pos ⟨hi, hij, hj⟩]
  have e1 : ((a.length : Int) + i).toNat = a.length + i.toNat := by omega
  have e2 : ((a.length : Int) + j).toNat - ((a.length : Int) + i).toNat = j.toNat - i.toNat := by
    omega
  rw [e2, e1]
  simp

theorem split_append_sep_any (sep : Char) (x rest : GoString) :
    split sep (x ++ sep :: rest) = split sep x ++ split sep rest := by
  induction x with
  | nil => simp [split]
  | cons c cs ih =>
    by_cases hc : c = sep
    · subst hc
      simp [split, ih]
    · have hne := split_ne_nil sep cs
      cases hsp : split sep cs with
      | nil => exact absurd hsp hne
      | cons piece pieces =>
        simp [split, hc, ih, hsp]

theorem split_join_flatten (sep : Char) (elems : List GoString) (h : elems ≠ []) :
    split sep (join sep elems) = (elems.map (split sep)).flatten := by
  induction elems with
  | nil => exact absurd rfl h
  | cons e es ih =>
    cases es with
    | nil => simp [join]
    | cons e' es' =>
      rw [join_cons_cons, split_append_sep_any, ih (by simp)]
      simp

theorem mem_trimSpace (s : GoString) (x : Char) (h : x ∈ trimSpace s) : x ∈ s := by
  unfold trimSpace at h
  rw [List.mem_reverse] at h
  have h1 := (List.dropWhile_sublist isSpace).mem h
  rw [List.mem_reverse] at h1
  exact (List.dropWhile_sublist isSpace).mem h1

theorem mem_of_slice (s t : GoString) (lo hi : Int) (h : slice s lo hi = some t) (x : Char)
    (hx : x ∈ t) : x ∈ s := by
  unfold slice at h
  split_ifs at h
  simp only [Option.some.injEq] at h
  rw [← h] at hx
  exact List.mem_of_mem_drop (List.mem_of_mem_take hx)

theorem mem_of_returnTypeText (L T : GoString) (h : returnTypeText L = some T) (x : Char)
    (hx : x ∈ T) : x ∈ L := by
  unfold returnTypeText at h
  simp only [Option.map_eq_some'] at h
  obtain ⟨t, ht, e⟩ := h
  rw [← e] at hx
  exact mem_of_slice L t _ _ ht x (mem_trimSpace t x hx)

theorem returnTypeText_isSome (L : GoString) (h : lastIndex L ')' < lastIndex L '\x7b') :
    ∃ T, returnTypeText L = some T := by
  have h1 := lastIndex_bounds L ')'
  have h2 := lastIndex_bounds L '\x7b'
  unfold returnTypeText slice
  dsimp only
  rw [if_pos ⟨by omega, by omega, by omega⟩]
  exact ⟨_, rfl⟩

theorem returnTypeText_named (X : GoString) :
    returnTypeText (X ++ ") \x7b".toList) = some [] := by
  have h1 : lastIndex (X ++ ") \x7b".toList) ')' = (X.length : Int) + 0 := by
    rw [lastIndex_append]
    rfl
  have h2 : lastIndex (X ++ ") \x7b".toList) '\x7b' = (X.length : Int) + 2 := by
    rw [lastIndex_append]
    rfl
  unfold returnTypeText
  dsimp only
  rw [h1, h2]
  have e : (X.length : Int) + 0 + 1 = (X.length : Int) + 1 := by omega
  rw [e, slice_append_left X ") \x7b".toList 1 2 (by decide) (by decide) (by decide)]
  rfl

/-! ## Lemmas on applying `addNamedReturn` twice -/

theorem addNamedReturn_of_kept (q : QuestionData) (code : GoString)
    (h : ∀ line ∈ split '\n' code, keptByAddNamedReturn line) :
    addNamedReturn code q = some code := by
  unfold addNamedReturn
  rw [addNamedReturnLoop_kept q _ [] h]
  simp [join_split]

theorem kept_of_not_func (l : GoString) (h : hasPrefix l "func ".toList = false) :
    keptByAddNamedReturn l := by
  intro hf
  rw [h] at hf
  exact absurd hf (by simp)

theorem kept_lines_of_line (l : GoString) (hnl : '\n' ∉ l) (hk : keptByAddNamedReturn l) :
    ∀ x ∈ split '\n' l, keptByAddNamedReturn x := by
  intro x hx
  rw [split_of_not_mem '\n' l hnl, List.mem_singleton] at hx
  rw [hx]
  exact hk

theorem kept_lines_bare_return :
    ∀ x ∈ split '\n' "\n\treturn".toList, keptByAddNamedReturn x := by
  intro x hx
  have e : split '\n' "\n\treturn".toList = ["".toList, "\treturn".toList] := by decide
  rw [e] at hx
  simp only [List.mem_cons, List.mem_singleton, List.not_mem_nil, or_false] at hx
  rcases hx with h | h
  · rw [h]; exact kept_of_not_func _ (by decide)
  · rw [h]; exact kept_of_not_func _ (by decide)

theorem addNamedReturnStep_kept (q : QuestionData) (hq : q.MetaData.SystemDesign = false)
    (st : List GoString × Nat) (line : GoString) (hnl : '\n' ∉ line)
    (hdef : hasPrefix line "func ".toList = true → lastIndex line ')' < lastIndex line '\x7b')
    (hacc : ∀ e ∈ st.1, ∀ x ∈ split '\n' e, keptByAddNamedReturn x) :
    ∃ st', addNamedReturnStep q st line = some st' ∧
      ∀ e ∈ st'.1, ∀ x ∈ split '\n' e, keptByAddNamedReturn x := by
  have happ : ∀ l : GoString, '\n' ∉ l → keptByAddNamedReturn l →
      ∀ e ∈ st.1 ++ [l], ∀ x ∈ split '\n' e, keptByAddNamedReturn x := by
    intro l hl hk e he
    rw [List.mem_append, List.mem_singleton] at he
    rcases he with he | he
    · exact hacc e he
    · rw [he]; exact kept_lines_of_line l hl hk
  unfold addNamedReturnStep
  dsimp only
  by_cases hk : st.2 > 0
  · rw [if_pos hk]
    exact ⟨_, rfl, hacc⟩
  · rw [if_neg hk]
    by_cases hf : hasPrefix line "func ".toList = true
    · rw [if_pos hf]
      obtain ⟨T, hT⟩ := returnTypeText_isSome line (hdef hf)
      rw [hT]
      dsimp only
      by_cases h1 : T ≠ "".toList
      · rw [if_pos h1]
        by_cases h2 : T = "bool".toList ∨ T = "string".toList
        · rw [if_pos h2]
          refine ⟨_, rfl, happ line hnl ?_⟩
          intro _
          rcases h2 with e | e
          · exact ⟨T, hT, Or.inl e⟩
          · exact ⟨T, hT, Or.inr (Or.inl e)⟩
        · rw [if_neg h2, hq, Bool.false_and]
          rw [if_neg (by simp), sliceTo_of_returnTypeText line T hT]
          dsimp only
          refine ⟨_, rfl, ?_⟩
          intro e he
          rw [List.mem_append] at he
          rcases he with he | he
          · exact hacc e he
          · simp only [List.mem_cons, List.mem_singleton, List.not_mem_nil, or_false] at he
            rcases he with he | he
            · rw [he]
              apply kept_lines_of_line
              · intro hmem
                simp only [List.mem_append] at hmem
                rcases hmem with ((hm | hm) | hm) | hm
                · exact hnl (List.mem_of_mem_take hm)
                · exact absurd hm (by decide)
                · exact hnl (mem_of_returnTypeText line T hT _ hm)
                · exact absurd hm (by decide)
              · intro _
                exact ⟨[], returnTypeText_named _, Or.inr (Or.inr rfl)⟩
            · rw [he]
              exact kept_lines_bare_return
      · rw [if_neg h1]
        refine ⟨_, rfl, happ line hnl ?_⟩
        intro _
        exact ⟨T, hT, Or.inr (Or.inr (by simpa using h1))⟩
    · rw [if_neg hf]
      exact ⟨_, rfl, happ line hnl (kept_of_not_func line (by simpa using hf))⟩

theorem addNamedReturnLoop_keeps (q : QuestionData) (hq : q.MetaData.SystemDesign = false)
    (lines : List GoString) :
    ∀ st : List GoString × Nat,
      (∀ line ∈ lines, '\n' ∉ line) →
      (∀ line ∈ lines, hasPrefix line "func ".toList = true →
        lastIndex line ')' < lastIndex line '\x7b') →
      (∀ e ∈ st.1, ∀ x ∈ split '\n' e, keptByAddNamedReturn x) →
      ∃ st', addNamedReturnLoop q lines st = some st' ∧
        ∀ e ∈ st'.1, ∀ x ∈ split '\n' e, keptByAddNamedReturn x := by
  induction lines with
  | nil =>
    intro st _ _ hacc
    exact ⟨st, rfl, hacc⟩
  | cons line rest ih =>
    intro st hnl hdef hacc
    obtain ⟨st1, hstep, h1⟩ := addNamedReturnStep_kept q hq st line (hnl line (by simp))
      (hdef line (by simp)) hacc
    obtain ⟨st2, hloop, h2⟩ := ih st1 (fun l hl => hnl l (List.mem_cons_of_mem _ hl))
      (fun l hl => hdef l (List.mem_cons_of_mem _ hl)) h1
    refine ⟨st2, ?_, h2⟩
    simp only [addNamedReturnLoop, hstep]
    exact hloop

theorem kept_lines_of_join (elems : List GoString)
    (h : ∀ e ∈ elems, ∀ x ∈ split '\n' e, keptByAddNamedReturn x) :
    ∀ x ∈ split '\n' (join '\n' elems), keptByAddNamedReturn x := by
  intro x hx
  cases elems with
  | nil =>
    have e : split '\n' (join '\n' []) = [[]] := rfl
    rw [e, List.mem_singleton] at hx
    rw [hx]
    exact kept_of_not_func _ (by decide)
  | cons e es =>
    rw [split_join_flatten '\n' (e :: es) (by simp), List.mem_flatten] at hx
    obtain ⟨ls, hls, hxl⟩ := hx
    rw [List.mem_map] at hls
    obtain ⟨e', he', hsp⟩ := hls
    rw [← hsp] at hxl
    exact h e' he' x hxl

/-! ## Lemmas on a declaration line with a known end -/

theorem slice_append_shift (a b : GoString) (i j : Int) (hi : 0 ≤ i) :
    slice (a ++ b) ((a.length : Int) + i) ((a.length : Int) + j) = slice b i j := by
  by_cases h : i ≤ j ∧ j ≤ (b.length : Int)
  · exact slice_append_left a b i j hi h.1 h.2
  · unfold slice
    have h1 : ¬ (0 ≤ (a.length : Int) + i ∧ (a.length : Int) + i ≤ (a.length : Int) + j ∧
        (a.length : Int) + j ≤ ((a ++ b).length : Int)) := by
      rintro ⟨_, h2, h3⟩
      apply h
      simp at h3
      constructor <;> omega
    have h2 : ¬ (0 ≤ i ∧ i ≤ j ∧ j ≤ (b.length : Int)) := fun hh => h hh.2
    rw [if_neg h1, if_neg h2]

theorem hasPrefix_append (s pre b : GoString) (h : hasPrefix s pre = true) :
    hasPrefix (s ++ b) pre = true := by
  unfold hasPrefix at h ⊢
  rw [List.isPrefixOf_iff_prefix] at h ⊢
  exact h.trans (List.prefix_append s b)

theorem returnTypeText_append (head b : GoString) (hb : 0 ≤ lastIndex b ')') :
    returnTypeText (head ++ b) = returnTypeText b := by
  unfold returnTypeText
  dsimp only
  rw [lastIndex_append head b ')', if_pos hb]
  by_cases hc : 0 ≤ lastIndex b '\x7b'
  · rw [lastIndex_append head b '\x7b', if_pos hc]
    have e : (head.length : Int) + lastIndex b ')' + 1 = (head.length : Int) + (lastIndex b ')' + 1) := by
      omega
    rw [e, slice_append_shift head b _ _ (by omega)]
  · rw [lastIndex_append head b '\x7b', if_neg hc]
    have h1 := lastIndex_bounds head '\x7b'
    have h2 := lastIndex_bounds b '\x7b'
    unfold slice
    rw [if_neg (by omega), if_neg (by omega)]

theorem addModReturnType_append (head b : GoString) (hcount : count (head ++ b) '(' ≠ 1)
    (h1 : 0 ≤ lastIndex b '(') (h2 : 0 ≤ lastIndex b ')') :
    addModReturnType (head ++ b) =
      match slice b (lastIndex b '(' + 1) (lastIndex b ')') with
      | none => none
      | some s => sliceFrom s (lastIndex s ' ' + 1) := by
  unfold addModReturnType
  rw [if_neg hcount, lastIndex_append head b '(', if_pos h1, lastIndex_append head b ')',
    if_pos h2]
  have e : (head.length : Int) + lastIndex b '(' + 1 = (head.length : Int) + (lastIndex b '(' + 1) := by
    omega
  rw [e, slice_append_shift head b _ _ (by omega)]

theorem addNamedReturnStep_rewrite (q : QuestionData) (acc : List GoString) (L T : GoString)
    (hfunc : hasPrefix L "func ".toList = true)
    (hT : returnTypeText L = some T)
    (hne : T ≠ "".toList) (hbool : T ≠ "bool".toList) (hstring : T ≠ "string".toList)
    (hctor : (q.MetaData.SystemDesign && contains L "func Constructor".toList) = false) :
    addNamedReturnStep q (acc, 0) L =
      some (acc ++ [L.take (lastIndex L ')' + 1).toNat ++ " (ans ".toList ++ T ++ ") \x7b".toList,
        "\n\treturn".toList], 1) := by
  unfold addNamedReturnStep
  have hnb : ¬ (T = "bool".toList ∨ T = "string".toList) := by
    rintro (e | e)
    · exact hbool e
    · exact hstring e
  simp only [Nat.lt_irrefl, gt_iff_lt, if_false, hfunc, if_true, hT, hne, ne_eq, not_false_eq_true,
    hnb, hctor, Bool.false_eq_true, sliceTo_of_returnTypeText L T hT]

set_option maxRecDepth 100000 in
theorem defaultPipeline_aux (getContent : QuestionData → GoString) (needsMod : GoString → Bool)
    (q : QuestionData) (head T : GoString)
    (hq : q.MetaData.SystemDesign = false) (hm : needsMod (getContent q) = true)
    (hhead : hasPrefix head "func ".toList = true)
    (hnl : '\n' ∉ head) (hparen : '(' ∈ head)
    (hTint : T = "int".toList ∨ T = "int64".toList ∨ T = "int32".toList)
    (hTnl : '\n' ∉ T)
    (hb1 : lastIndex (") ".toList ++ T ++ " \x7b".toList) ')' = 0)
    (hb2 : returnTypeText (") ".toList ++ T ++ " \x7b".toList) = some T)
    (hc1 : count (") (ans ".toList ++ T ++ ") \x7b".toList) '(' = 1)
    (hc2 : 0 ≤ lastIndex (") (ans ".toList ++ T ++ ") \x7b".toList) '(')
    (hc3 : 0 ≤ lastIndex (") (ans ".toList ++ T ++ ") \x7b".toList) ')')
    (hc4 : (match slice (") (ans ".toList ++ T ++ ") \x7b".toList)
          (lastIndex (") (ans ".toList ++ T ++ ") \x7b".toList) '(' + 1)
          (lastIndex (") (ans ".toList ++ T ++ ") \x7b".toList) ')') with
        | none => none
        | some s => sliceFrom s (lastIndex s ' ' + 1)) = some T) :
    (addNamedReturn (head ++ ") ".toList ++ T ++ " \x7b\n\n\x7d".toList) q).bind
        (fun c => addMod getContent needsMod c q) =
      some (head ++ ") (ans ".toList ++ T ++
        (") \x7b\n\tconst mod int = 1e9 + 7\n\n\n" ++
          "\tans = (ans%mod + mod) % mod\n\treturn\n\x7d").toList) := by
  have hTne : T ≠ "".toList ∧ T ≠ "bool".toList ∧ T ≠ "string".toList := by
    rcases hTint with e | e | e <;> subst e <;> decide
  have hcode : head ++ ") ".toList ++ T ++ " \x7b\n\n\x7d".toList =
      (head ++ (") ".toList ++ T ++ " \x7b".toList)) ++ '\n' :: "\n\x7d".toList := by
    simp [List.append_assoc]
  have hLnl : '\n' ∉ head ++ (") ".toList ++ T ++ " \x7b".toList) := by
    intro hmem
    simp only [List.mem_append] at hmem
    rcases hmem with hm1 | ((hm1 | hm1) | hm1)
    · exact hnl hm1
    · exact absurd hm1 (by decide)
    · exact hTnl hm1
    · exact absurd hm1 (by decide)
  have hsplit : split '\n' (head ++ ") ".toList ++ T ++ " \x7b\n\n\x7d".toList) =
      [head ++ (") ".toList ++ T ++ " \x7b".toList), "".toList, "\x7d".toList] := by
    rw [hcode, split_append_sep '\n' _ _ hLnl]
    rfl
  have hLT : returnTypeText (head ++ (") ".toList ++ T ++ " \x7b".toList)) = some T := by
    rw [returnTypeText_append head _ (by rw [hb1]), hb2]
  have hidx : lastIndex (head ++ (") ".toList ++ T ++ " \x7b".toList)) ')'
      = (head.length : Int) + 0 := by
    rw [lastIndex_append, if_pos (by rw [hb1]), hb1]
  have htake : (head ++ (") ".toList ++ T ++ " \x7b".toList)).take
      (lastIndex (head ++ (") ".toList ++ T ++ " \x7b".toList)) ')' + 1).toNat ++
        " (ans ".toList ++ T ++ ") \x7b".toList = head ++ (") (ans ".toList ++ T ++ ") \x7b".toList) := by
    rw [hidx]
    have e : ((head.length : Int) + 0 + 1).toNat = head.length + 1 := by omega
    rw [e, List.take_append]
    simp [List.append_assoc]
  have hstep1 := addNamedReturnStep_rewrite q []
    (head ++ (") ".toList ++ T ++ " \x7b".toList)) T (hasPrefix_append head _ _ hhead) hLT
    hTne.1 hTne.2.1 hTne.2.2 (by rw [hq]; rfl)
  rw [htake] at hstep1
  have hskip : ∀ acc : List GoString,
      addNamedReturnStep q (acc, 1) "".toList = some (acc, 0) := fun _ => rfl
  have hbrace : ∀ acc : List GoString,
      addNamedReturnStep q (acc, 0) "\x7d".toList = some (acc ++ ["\x7d".toList], 0) :=
    fun _ => rfl
  have hpass1 : addNamedReturn (head ++ ") ".toList ++ T ++ " \x7b\n\n\x7d".toList) q =
      some (join '\n' [head ++ (") (ans ".toList ++ T ++ ") \x7b".toList), "\n\treturn".toList,
        "\x7d".toList]) := by
    unfold addNamedReturn
    rw [hsplit]
    simp only [addNamedReturnLoop, hstep1, hskip, hbrace]
    rfl
  have hL'nl : '\n' ∉ head ++ (") (ans ".toList ++ T ++ ") \x7b".toList) := by
    intro hmem
    simp only [List.mem_append] at hmem
    rcases hmem with hm1 | ((hm1 | hm1) | hm1)
    · exact hnl hm1
    · exact absurd hm1 (by decide)
    · exact hTnl hm1
    · exact absurd hm1 (by decide)
  have hout : join '\n' [head ++ (") (ans ".toList ++ T ++ ") \x7b".toList), "\n\treturn".toList,
        "\x7d".toList] =
      (head ++ (") (ans ".toList ++ T ++ ") \x7b".toList)) ++ '\n' :: "\n\treturn\n\x7d".toList := by
    simp [join]
  have hsplit2 : split '\n' (join '\n' [head ++ (") (ans ".toList ++ T ++ ") \x7b".toList),
        "\n\treturn".toList, "\x7d".toList]) =
      [head ++ (") (ans ".toList ++ T ++ ") \x7b".toList), "".toList, "\treturn".toList,
        "\x7d".toList] := by
    rw [hout, split_append_sep '\n' _ _ hL'nl]
    rfl
  have hcount : count (head ++ (") (ans ".toList ++ T ++ ") \x7b".toList)) '(' ≠ 1 := by
    have h1 : 0 < List.count '(' head := List.count_pos_iff.mpr hparen
    unfold count at hc1 ⊢
    rw [List.count_append, hc1]
    omega
  have hstepA : addModStep ([], "".toList) (head ++ (") (ans ".toList ++ T ++ ") \x7b".toList)) =
      some ([head ++ (") (ans ".toList ++ T ++ ") \x7b".toList),
        "\tconst mod int = 1e9 + 7\n".toList], T) := by
    unfold addModStep
    dsimp only
    rw [if_pos (hasPrefix_append head _ _ hhead), addModReturnType_append head _ hcount hc2 hc3,
      hc4]
    rfl
  have hstepB : ∀ acc : List GoString,
      addModStep (acc, T) "".toList = some (acc ++ ["".toList], T) := fun _ => rfl
  have hstepC : ∀ acc : List GoString,
      addModStep (acc, T) "\treturn".toList =
        some (acc ++ ["\tans = (ans%mod + mod) % mod".toList, "\treturn".toList], T) := by
    intro acc
    unfold addModStep
    dsimp only
    rw [if_neg (by decide), if_pos (by decide), if_pos hTint]
  have hstepD : ∀ acc : List GoString,
      addModStep (acc, T) "\x7d".toList = some (acc ++ ["\x7d".toList], T) := fun _ => rfl
  rw [hpass1, Option.some_bind]
  unfold addMod
  rw [hq, hm, hsplit2]
  simp only [Bool.false_eq_true, if_false, Bool.not_true, addModLoop, hstepA, hstepB, hstepC,
    hstepD, Option.map_some']
  simp [join, List.append_assoc]

/-! ## Lemmas on the slice of `generateSystemDesignTestCode` -/

theorem methodsLoop_slice_of_ne_nil (Title : GoString → GoString) (ms : List Method)
    (h : ms ≠ []) :
    sliceTo (methodsLoop Title ms "".toList)
        (((methodsLoop Title ms "".toList).length : Int) - 1)
      = some (join '\n' (ms.map (methodBranchLines Title)).flatten) := by
  rw [methodsLoop_eq, show ("".toList : GoString) = [] from rfl, List.nil_append,
    terminated_eq_join _ (methodBranchLines_flatten_ne_nil Title ms h),
    sliceTo_append_singleton]

theorem generateSystemDesignTestCode_isSome_iff (Title : GoString → GoString)
    (mark : GoString) (q : QuestionData) :
    (generateSystemDesignTestCode Title mark q).isSome =
      (sliceTo (methodsLoop Title q.MetaData.Methods "".toList)
        (((methodsLoop Title q.MetaData.Methods "".toList).length : Int) - 1)).isSome := by
  unfold generateSystemDesignTestCode
  dsimp only
  cases sliceTo (methodsLoop Title q.MetaData.Methods "".toList)
      (((methodsLoop Title q.MetaData.Methods "".toList).length : Int) - 1) <;> rfl

/-! ## Claims on `convertToGoType` -/

/-- C1: `convertToGoType` maps the fixed abstract kinds: integer to int, long to
int64, double to float64, boolean to bool, character to byte, string to string,
TreeNode to *TreeNode and ListNode to *ListNode. -/
theorem convertToGoType_fixed_kinds :
    convertToGoType "integer".toList = "int".toList ∧
    convertToGoType "long".toList = "int64".toList ∧
    convertToGoType "double".toList = "float64".toList ∧
    convertToGoType "boolean".toList = "bool".toList ∧
    convertToGoType "character".toList = "byte".toList ∧
    convertToGoType "string".toList = "string".toList ∧
    convertToGoType "TreeNode".toList = "*TreeNode".toList ∧
    convertToGoType "ListNode".toList = "*ListNode".toList := by
  decide

/-- C2: for every type name `b` and every `k`, `convertToGoType` of `b` followed
by `k` suffixes `[]` is `k` prefixes `[]` followed by `convertToGoType b`; in
particular `integer[][]` maps to `[][]int` and `TreeNode[]` to `[]*TreeNode`. -/
theorem convertToGoType_arrays :
    (∀ (b : GoString) (k : Nat),
      convertToGoType (b ++ copies k "[]".toList)
        = copies k "[]".toList ++ convertToGoType b) ∧
    convertToGoType "integer[][]".toList = "[][]int".toList ∧
    convertToGoType "TreeNode[]".toList = "[]*TreeNode".toList := by
  refine ⟨?_, by decide, by decide⟩
  intro b k
  induction k with
  | zero => simp [copies]
  | succ k ih =>
    have hsplit : b ++ copies (k + 1) "[]".toList = (b ++ copies k "[]".toList) ++ "[]".toList := by
      rw [copies_succ_right, List.append_assoc]
    rw [hsplit, convertToGoType_array, ih]
    show "[]".toList ++ (copies k "[]".toList ++ convertToGoType b)
      = ("[]".toList ++ copies k "[]".toList) ++ convertToGoType b
    rw [List.append_assoc]

/-- C3: a type name that is none of integer, long, double, boolean, character,
void, TreeNode, ListNode and does not end with `[]` is returned unchanged. -/
theorem convertToGoType_passthrough (typeName : GoString)
    (h1 : typeName ≠ "integer".toList) (h2 : typeName ≠ "long".toList)
    (h3 : typeName ≠ "double".toList) (h4 : typeName ≠ "boolean".toList)
    (h5 : typeName ≠ "character".toList) (h6 : typeName ≠ "void".toList)
    (h7 : typeName ≠ "TreeNode".toList) (h8 : typeName ≠ "ListNode".toList)
    (hs : hasSuffix typeName "[]".toList = false) :
    convertToGoType typeName = typeName := by
  rw [convertToGoType_unfold, if_neg h1, if_neg h2, if_neg h3, if_neg h4, if_neg h5, if_neg h6,
    if_neg h7, if_neg h8]
  simp only [hs, Bool.false_eq_true, if_false]

/-- Witness for C3: the toolchain-native name `map[string]int` passes through. -/
theorem convertToGoType_passthrough_witness :
    convertToGoType "map[string]int".toList = "map[string]int".toList :=
  convertToGoType_passthrough "map[string]int".toList (by decide) (by decide) (by decide)
    (by decide) (by decide) (by decide) (by decide) (by decide) (by decide)

/-! ## Claims on `addNamedReturn` -/

/-- C5: `addNamedReturn` returns its input unchanged, for every question and
every code in which each line starting with `func ` has a return type text that
is `bool`, `string` or empty; in particular code without a line starting with
`func ` is returned unchanged. -/
theorem addNamedReturn_unchanged (q : QuestionData) (code : GoString) :
    ((∀ line ∈ split '\n' code, hasPrefix line "func ".toList = true →
        ∃ T, returnTypeText line = some T ∧
          (T = "bool".toList ∨ T = "string".toList ∨ T = "".toList)) →
      addNamedReturn code q = some code) ∧
    ((∀ line ∈ split '\n' code, hasPrefix line "func ".toList = false) →
      addNamedReturn code q = some code) := by
  have main : (∀ line ∈ split '\n' code, keptByAddNamedReturn line) →
      addNamedReturn code q = some code := by
    intro h
    unfold addNamedReturn
    rw [addNamedReturnLoop_kept q _ [] h]
    simp [join_split]
  refine ⟨fun h => main h, fun h => main ?_⟩
  intro line hl hf
  rw [h line hl] at hf
  exact absurd hf (by simp)

/-- Witness for C5: a declaration with result `bool`, one with a parenthesised
result list and one without result are left as they are. -/
theorem addNamedReturn_unchanged_witness :
    addNamedReturn
        "func ok(a int) bool \x7b\n\n\x7d\nfunc g(a int) (int, error) \x7b\n\x7d\nfunc h() \x7b\n\x7d".toList
        plainQuestion
      = some "func ok(a int) bool \x7b\n\n\x7d\nfunc g(a int) (int, error) \x7b\n\x7d\nfunc h() \x7b\n\x7d".toList :=
  (addNamedReturn_unchanged plainQuestion
    "func ok(a int) bool \x7b\n\n\x7d\nfunc g(a int) (int, error) \x7b\n\x7d\nfunc h() \x7b\n\x7d".toList).1
    (by decide)

/-- C7, as stated, fails: a line that is exactly `func (this *` is not left
unchanged, the slice `line[n : n+1]` is out of range and nothing is returned;
and a receiver type whose first letter is not ASCII does not give the
lower-cased letter, the one-byte slice becomes U+FFFD. -/
theorem changeReceiverName_counterexample :
    changeReceiverName "func (this *".toList designQuestion = none ∧
    changeReceiverName "func (this *Édouard) Len() int \x7b".toList designQuestion
      = some "func (\uFFFD *Édouard) Len() int \x7b".toList := by
  decide

/-- C7, amended: for code without a line that is exactly `func (this *`,
`changeReceiverName` returns a text with as many lines as the code, in which
every line starting with `func (this *` followed by an ASCII character `c` has
its first `this` replaced by the lower-cased `c`, and every line that does not
start with `func (this *` is unchanged. -/
theorem changeReceiverName_renames (code : GoString) (q : QuestionData)
    (hbare : ∀ line ∈ split '\n' code, line ≠ "func (this *".toList) :
    ∃ out : List GoString,
      changeReceiverName code q = some (join '\n' out) ∧
      split '\n' (join '\n' out) = out ∧
      List.Forall₂ (fun line line' =>
        (∀ (c : Char) (rest : GoString), line = "func (this *".toList ++ c :: rest →
          c.toNat < 128 → line' = replaceFirst line "this".toList [c.toLower]) ∧
        (hasPrefix line "func (this *".toList = false → line' = line))
        (split '\n' code) out := by
  refine ⟨(split '\n' code).map (fun line => (changeReceiverLine line).getD line), ?_, ?_, ?_⟩
  · unfold changeReceiverName
    rw [changeReceiverNameLoop_map _ hbare]
    rfl
  · apply split_join
    · intro h
      exact split_ne_nil '\n' code (List.map_eq_nil_iff.mp h)
    · intro l hl
      rw [List.mem_map] at hl
      obtain ⟨line, hline, e⟩ := hl
      rw [← e]
      exact newline_not_mem_changeReceiverLine line (not_mem_of_mem_split '\n' code line hline)
  · rw [List.forall₂_map_right_iff, List.forall₂_same]
    intro line _
    constructor
    · intro c rest e hc
      rw [e, changeReceiverLine_receiver]
      unfold toLowerByteOf
      rw [if_pos hc]
      rfl
    · intro hp
      rw [changeReceiverLine_other line hp]
      rfl

/-- Witness for C7: the receiver of `MyStack` becomes `m`, the other lines stay. -/
theorem changeReceiverName_renames_witness :
    (∃ out : List GoString,
      changeReceiverName "func (this *MyStack) Push(x int) \x7b\n\n\x7d".toList designQuestion
        = some (join '\n' out) ∧
      split '\n' (join '\n' out) = out ∧
      List.Forall₂ (fun line line' =>
        (∀ (c : Char) (rest : GoString), line = "func (this *".toList ++ c :: rest →
          c.toNat < 128 → line' = replaceFirst line "this".toList [c.toLower]) ∧
        (hasPrefix line "func (this *".toList = false → line' = line))
        (split '\n' "func (this *MyStack) Push(x int) \x7b\n\n\x7d".toList) out) ∧
    changeReceiverName "func (this *MyStack) Push(x int) \x7b\n\n\x7d".toList designQuestion
      = some "func (m *MyStack) Push(x int) \x7b\n\n\x7d".toList :=
  ⟨changeReceiverName_renames "func (this *MyStack) Push(x int) \x7b\n\n\x7d".toList designQuestion
    (by decide), by decide⟩

/-! ## Claims on `addMod` -/

/-- C8: `addMod` returns the code unchanged, for every code, whenever the
question is interactive or its description does not ask for a modulus. -/
theorem addMod_unchanged (getContent : QuestionData → GoString) (needsMod : GoString → Bool)
    (code : GoString) (q : QuestionData)
    (h : q.MetaData.SystemDesign = true ∨ needsMod (getContent q) = false) :
    addMod getContent needsMod code q = some code := by
  unfold addMod
  rcases h with h | h
  · simp [h]
  · simp [h]

/-- Witness for C8: an interactive question, whatever its description says. -/
theorem addMod_unchanged_witness :
    addMod (fun _ => "modulo 1e9+7".toList) (fun _ => true)
        "func (this *MyStack) Top() int \x7b\n\treturn 0\n\x7d".toList designQuestion
      = some "func (this *MyStack) Top() int \x7b\n\treturn 0\n\x7d".toList :=
  addMod_unchanged (fun _ => "modulo 1e9+7".toList) (fun _ => true)
    "func (this *MyStack) Top() int \x7b\n\treturn 0\n\x7d".toList designQuestion (Or.inl rfl)

/-- C9, as stated, fails: on code with a declaration whose parameter list
continues on the next line, the first line has neither `)` nor `{`, the slice
that recovers the result type is out of range, and `addMod` returns nothing. -/
theorem addMod_const_counterexample :
    addMod (fun _ => "return it modulo 1e9+7".toList) (fun _ => true)
      "func f(a int,\n\tb int) int \x7b\n\treturn 0\n\x7d".toList plainQuestion = none := by
  decide

/-- C9, amended: for a non-interactive question whose description asks for a
modulus, and code in which `addMod` recovers a result type text from every line
starting with `func `, the result consists of the lines of the code in their
order, each line starting with `func ` directly followed by the constant
declaration line and an empty line, and every other line either alone or
directly preceded by the guard line. -/
theorem addMod_const_after_func (getContent : QuestionData → GoString)
    (needsMod : GoString → Bool) (code : GoString) (q : QuestionData)
    (hq : q.MetaData.SystemDesign = false) (hm : needsMod (getContent q) = true)
    (hdef : ∀ line ∈ split '\n' code, hasPrefix line "func ".toList = true →
      (addModReturnType line).isSome = true) :
    ∃ blocks : List (List GoString),
      addMod getContent needsMod code q = some (join '\n' blocks.flatten) ∧
      List.Forall₂ (fun line block =>
        (hasPrefix line "func ".toList = true → block = [line, modConstDecl, "".toList]) ∧
        (hasPrefix line "func ".toList = false → block = [line] ∨ block = [modGuard, line]))
        (split '\n' code) blocks :=
  ⟨addModBlocks [] (split '\n' code), addMod_eq_blocks getContent needsMod code q hq hm hdef,
    addModBlocks_forall₂ (split '\n' code) []⟩

/-- Witness for C9: a one-function template. -/
theorem addMod_const_after_func_witness :
    (∃ blocks : List (List GoString),
      addMod (fun _ => "return it modulo 1e9+7".toList) (fun _ => true)
        "func f(a int) int \x7b\n\n\x7d".toList plainQuestion = some (join '\n' blocks.flatten) ∧
      List.Forall₂ (fun line block =>
        (hasPrefix line "func ".toList = true → block = [line, modConstDecl, "".toList]) ∧
        (hasPrefix line "func ".toList = false → block = [line] ∨ block = [modGuard, line]))
        (split '\n' "func f(a int) int \x7b\n\n\x7d".toList) blocks) ∧
    addMod (fun _ => "return it modulo 1e9+7".toList) (fun _ => true)
        "func f(a int) int \x7b\n\n\x7d".toList plainQuestion
      = some "func f(a int) int \x7b\n\tconst mod int = 1e9 + 7\n\n\n\x7d".toList :=
  ⟨addMod_const_after_func (fun _ => "return it modulo 1e9+7".toList) (fun _ => true)
    "func f(a int) int \x7b\n\n\x7d".toList plainQuestion rfl rfl (by decide), by decide⟩

set_option maxRecDepth 100000 in
/-- C10, as stated, fails in both directions.  A declaration with a function
typed parameter and result type `int` gets no guard before its return, because
`addMod` takes `bool` out of the last parenthesis pair; a declaration with a
receiver and result type `string` gets the guard, because `addMod` takes `int`,
the type of the last parameter; and when the parameter list of an `int`
function continues on the next line, nothing is returned at all. -/
theorem addMod_guard_counterexample :
    (returnTypeText "func f(cmp func(a, b int) bool) int \x7b".toList = some "int".toList ∧
      addMod (fun _ => "return it modulo 1e9+7".toList) (fun _ => true)
        "func f(cmp func(a, b int) bool) int \x7b\n\treturn 0\n\x7d".toList plainQuestion
        = some ("func f(cmp func(a, b int) bool) int \x7b\n\tconst mod int = 1e9 + 7\n\n" ++
            "\treturn 0\n\x7d").toList) ∧
    (returnTypeText "func (s *S) f(a int) string \x7b".toList = some "string".toList ∧
      addMod (fun _ => "return it modulo 1e9+7".toList) (fun _ => true)
        "func (s *S) f(a int) string \x7b\n\treturn\n\x7d".toList plainQuestion
        = some ("func (s *S) f(a int) string \x7b\n\tconst mod int = 1e9 + 7\n\n" ++
            "\tans = (ans%mod + mod) % mod\n\treturn\n\x7d").toList) ∧
    addMod (fun _ => "return it modulo 1e9+7".toList) (fun _ => true)
      "func g(a int,\n\tb int) int \x7b\n\treturn a\n\x7d".toList plainQuestion = none := by
  decide

/-- C10, amended: for a non-interactive question whose description asks for a
modulus, and code in which `addMod` recovers a result type text from every line
starting with `func `, the guard line is inserted directly before a line
starting with `\treturn` exactly when the result type text recovered from the
most recent preceding line starting with `func ` is `int`, `int64` or `int32`
(see `addModBlock`); before a return that no declaration precedes, and before
any other line, no guard is inserted. -/
theorem addMod_guard_before_return (getContent : QuestionData → GoString)
    (needsMod : GoString → Bool) (code : GoString) (q : QuestionData)
    (hq : q.MetaData.SystemDesign = false) (hm : needsMod (getContent q) = true)
    (hdef : ∀ line ∈ split '\n' code, hasPrefix line "func ".toList = true →
      (addModReturnType line).isSome = true) :
    addMod getContent needsMod code q =
      some (join '\n' (addModBlocks [] (split '\n' code)).flatten) :=
  addMod_eq_blocks getContent needsMod code q hq hm hdef

set_option maxRecDepth 100000 in
/-- Witness for C10: a return before any declaration gets no guard, the return
of an `int` function gets one, the return of a `[]int` function gets none. -/
theorem addMod_guard_before_return_witness :
    addMod (fun _ => "return it modulo 1e9+7".toList) (fun _ => true)
        ("\treturn\nfunc f(a int) (ans int) \x7b\n\n\treturn\n\x7d\n" ++
          "func g(a int) (ans []int) \x7b\n\n\treturn\n\x7d").toList plainQuestion
      = some ("\treturn\nfunc f(a int) (ans int) \x7b\n\tconst mod int = 1e9 + 7\n\n\n" ++
          "\tans = (ans%mod + mod) % mod\n\treturn\n\x7d\n" ++
          "func g(a int) (ans []int) \x7b\n\tconst mod int = 1e9 + 7\n\n\n\treturn\n\x7d").toList :=
  (addMod_guard_before_return (fun _ => "return it modulo 1e9+7".toList) (fun _ => true)
    ("\treturn\nfunc f(a int) (ans int) \x7b\n\n\treturn\n\x7d\n" ++
      "func g(a int) (ans []int) \x7b\n\n\treturn\n\x7d").toList plainQuestion rfl rfl
    (by decide)).trans (by decide)

/-! ## Claims on the order of the modifiers -/

set_option maxRecDepth 100000 in
/-- C11: `addNamedReturn` and `addMod` do not commute.  For the non-interactive
question `plainQuestion` with a description that needs a modulus and the code
`func f(a int) int {`, empty line, `}`: `addNamedReturn` then `addMod` gives the
named result, the constant, the guard and the bare return; `addMod` then
`addNamedReturn` gives the named result and a bare return where the constant
line was, and no guard.  The two results differ. -/
theorem addNamedReturn_addMod_not_commute :
    (addNamedReturn "func f(a int) int \x7b\n\n\x7d".toList plainQuestion).bind
        (fun c => addMod (fun _ => "return it modulo 1e9+7".toList) (fun _ => true) c plainQuestion)
      = some ("func f(a int) (ans int) \x7b\n\tconst mod int = 1e9 + 7\n\n\n" ++
          "\tans = (ans%mod + mod) % mod\n\treturn\n\x7d").toList ∧
    (addMod (fun _ => "return it modulo 1e9+7".toList) (fun _ => true)
        "func f(a int) int \x7b\n\n\x7d".toList plainQuestion).bind
        (fun c => addNamedReturn c plainQuestion)
      = some "func f(a int) (ans int) \x7b\n\n\treturn\n\n\n\x7d".toList ∧
    (addNamedReturn "func f(a int) int \x7b\n\n\x7d".toList plainQuestion).bind
        (fun c => addMod (fun _ => "return it modulo 1e9+7".toList) (fun _ => true) c plainQuestion)
      ≠ (addMod (fun _ => "return it modulo 1e9+7".toList) (fun _ => true)
        "func f(a int) int \x7b\n\n\x7d".toList plainQuestion).bind
        (fun c => addNamedReturn c plainQuestion) := by
  decide

/-! ## Claims on `HasInitialized` -/

/-- C16: `HasInitialized`, as a function of the outcome of `go list`: when the
command succeeds the result is `(true, nil)`; when it fails and the output
contains `not a known dependency` or `go.mod file not found` the result is
`(false, nil)`; for every other failure it is `false` with an error. -/
theorem HasInitialized_outcomes :
    (∀ output : GoString, HasInitialized none output = (true, none)) ∧
    (∀ (err output : GoString),
      contains output "not a known dependency".toList = true ∨
        contains output "go.mod file not found".toList = true →
      HasInitialized (some err) output = (false, none)) ∧
    (∀ (err output : GoString),
      contains output "not a known dependency".toList = false →
      contains output "go.mod file not found".toList = false →
      HasInitialized (some err) output = (false, some ("go list failed: ".toList ++ err))) := by
  refine ⟨fun _ => rfl, ?_, ?_⟩
  · intro err output h
    unfold HasInitialized
    rcases h with h | h
    · rw [h]; rfl
    · rw [h, Bool.or_true]; rfl
  · intro err output h1 h2
    unfold HasInitialized
    rw [h1, h2]
    rfl

set_option maxRecDepth 100000 in
/-- Witness for C16: a missing dependency, a missing manifest and a network
failure. -/
theorem HasInitialized_outcomes_witness :
    HasInitialized (some "exit status 1".toList)
        "go: module example.com/x: not a known dependency".toList = (false, none) ∧
    HasInitialized (some "exit status 1".toList)
        "go: go.mod file not found in current directory".toList = (false, none) ∧
    HasInitialized (some "exit status 1".toList) "dial tcp: i/o timeout".toList
      = (false, some "go list failed: exit status 1".toList) :=
  ⟨HasInitialized_outcomes.2.1 _ _ (Or.inl (by decide)),
    HasInitialized_outcomes.2.1 _ _ (Or.inr (by decide)),
    HasInitialized_outcomes.2.2 _ _ (by decide) (by decide)⟩

/-! ## Claims on the guard expression -/

/-- C17: for every integer `ans`, so for every 64-bit integer, negative ones
included, the expression `(ans%mod + mod) % mod` with `mod = 1000000007` and
Go's truncating remainder evaluates without overflow (the sum stays in the
64-bit range, so no wrap-around changes a value) to a value `r` with
`0 ≤ r < mod` that is congruent to `ans` modulo `mod`. -/
theorem modGuardValue_residue (ans : Int) :
    (-2 ^ 63 ≤ goRem ans modulus + modulus ∧ goRem ans modulus + modulus < 2 ^ 63) ∧
    modGuardValue ans = goRem (goRem ans modulus + modulus) modulus ∧
    0 ≤ modGuardValue ans ∧ modGuardValue ans < modulus ∧
    modGuardValue ans % modulus = ans % modulus := by
  have hb := goRem_modulus_bounds ans
  obtain ⟨h1, h2, h3⟩ := hb
  have hsum : goRem (goRem ans modulus + modulus) modulus
      = (goRem ans modulus + modulus) % modulus := by
    unfold goRem at h1 h2 ⊢
    unfold modulus at h1 h2 ⊢
    exact Int.tmod_eq_emod (by omega) (by norm_num)
  have hval : modGuardValue ans = goRem (goRem ans modulus + modulus) modulus := by
    have hw1 : wrapInt64 (goRem ans modulus) = goRem ans modulus := by
      unfold wrapInt64; unfold modulus at h1 h2 ⊢; omega
    have hw2 : wrapInt64 (goRem ans modulus + modulus) = goRem ans modulus + modulus := by
      unfold wrapInt64; unfold modulus at h1 h2 ⊢; omega
    have hw3 : wrapInt64 (goRem (goRem ans modulus + modulus) modulus)
        = goRem (goRem ans modulus + modulus) modulus := by
      rw [hsum]
      unfold wrapInt64; unfold modulus at h1 h2 ⊢; omega
    unfold modGuardValue
    rw [hw1, hw2, hw3]
  refine ⟨?_, hval, ?_, ?_, ?_⟩
  · unfold modulus at h1 h2 ⊢; omega
  · rw [hval, hsum]; unfold modulus at h1 h2 ⊢; omega
  · rw [hval, hsum]; unfold modulus at h1 h2 ⊢; omega
  · rw [hval, hsum]
    unfold modulus at h1 h2 h3 ⊢
    omega

/-- Instance of C17 at the smallest 64-bit integer. -/
theorem modGuardValue_residue_witness :
    modGuardValue (-9223372036854775808) = 708828003 ∧
    (708828003 : Int) % modulus = (-9223372036854775808) % modulus :=
  ⟨((modGuardValue_residue (-9223372036854775808)).2.1).trans (by decide), by decide⟩

/-! ## Claims on `verify` -/

/-- C19: for every configuration whose credentials source is neither `cookies`
nor `password`, `verify` succeeds if and only if the language is `zh` or `en`,
`code.lang` is not empty, the site is `https://leetcode.cn` or
`https://leetcode.com`, and the credentials source is `browser` or `none`; on
success the configuration is left unchanged. -/
theorem verify_without_secrets (vaultHeader : GoString)
    (Decrypt : GoString → GoString × Option GoString) (c : Config)
    (hcookies : c.LeetCode.Credentials.From ≠ "cookies".toList)
    (hpassword : c.LeetCode.Credentials.From ≠ "password".toList) :
    ((verify vaultHeader Decrypt c).2 = none ↔
      ((c.Language = "zh".toList ∨ c.Language = "en".toList) ∧
        c.Code.Lang ≠ "".toList ∧
        (c.LeetCode.Site = "https://leetcode.cn".toList ∨
          c.LeetCode.Site = "https://leetcode.com".toList) ∧
        (c.LeetCode.Credentials.From = "browser".toList ∨
          c.LeetCode.Credentials.From = "none".toList))) ∧
    ((verify vaultHeader Decrypt c).2 = none → (verify vaultHeader Decrypt c).1 = c) := by
  unfold verify
  split_ifs <;> simp_all [credentialFrom, ZH, EN, LeetCodeCN, LeetCodeUS]
  tauto

/-- Witness for C19: the default configuration takes its credentials from the
browser; it passes and is left unchanged. -/
theorem verify_without_secrets_witness :
    (verify "vault:".toList (fun pw => (pw, none)) Default).2 = none ∧
    (verify "vault:".toList (fun pw => (pw, none)) Default).1 = Default :=
  have h := verify_without_secrets "vault:".toList (fun pw => (pw, none)) Default
    (by decide) (by decide)
  have hok : (verify "vault:".toList (fun pw => (pw, none)) Default).2 = none :=
    h.1.2 ⟨Or.inl (by decide), by decide, Or.inl (by decide), Or.inl (by decide)⟩
  ⟨hok, h.2 hok⟩

/-! ## Claims on the test drivers -/

/-- C12: for every direct-call question with a non-void return,
`generateNormalTestCode` returns exactly the line `func main() {`, the line that
opens the reader, one deserialization line per declared parameter in declared
order, the line `ans := <function name>(<parameter names joined by ", ">)`, the
sentinel print line (token, one space, serialized answer), `}` and a final
line break; and no error. -/
theorem generateNormalTestCode_with_return (testCaseOutputMark : GoString) (q : QuestionData)
    (r : Return) (hr : q.MetaData.Return = some r) (hv : r.Typ ≠ "void".toList) :
    generateNormalTestCode testCaseOutputMark q = some (join '\n'
      (["func main() \x7b".toList, "\tstdin := bufio.NewReader(os.Stdin)".toList] ++
        (q.MetaData.Params.map (fun p =>
            "\t".toList ++ p.Name ++ " := Deserialize[".toList ++ convertToGoType p.Typ ++
              "](ReadLine(stdin))".toList) ++
          ["\tans := ".toList ++ q.MetaData.Name ++ "(".toList ++
            joinStr ", ".toList (q.MetaData.Params.map (fun p => p.Name)) ++ ")".toList]) ++
        ["\tfmt.Println(\"".toList ++ testCaseOutputMark ++ " \" + Serialize(ans))".toList,
          "\x7d".toList, "".toList]), none) := by
  rw [generateNormalTestCode_value testCaseOutputMark q r hr hv]
  have e1 : (fun p : Param =>
      "\t".toList ++ p.Name ++ " := Deserialize[".toList ++ convertToGoType p.Typ ++
        "](ReadLine(stdin))".toList) = readParamLine := rfl
  rw [e1]
  simp [callText, printLine, List.append_assoc]

set_option maxRecDepth 1000000 in
/-- Witness for C12: the driver of `twoSum(nums, target)`. -/
theorem generateNormalTestCode_with_return_witness :
    generateNormalTestCode "output:".toList sumQuestion = some (
      ("func main() \x7b\n\tstdin := bufio.NewReader(os.Stdin)\n" ++
        "\tnums := Deserialize[[]int](ReadLine(stdin))\n" ++
        "\ttarget := Deserialize[int](ReadLine(stdin))\n" ++
        "\tans := twoSum(nums, target)\n" ++
        "\tfmt.Println(\"output: \" + Serialize(ans))\n\x7d\n").toList, none) :=
  (generateNormalTestCode_with_return "output:".toList sumQuestion ⟨"integer[]".toList⟩ rfl
    (by decide)).trans (by decide)

/-- C13: in the driver of `generateNormalTestCode` the answer is the value of
the call, `ans := f(args)`, when the question declares a return whose type is
not `void`; otherwise the function is called as a statement and the answer is
the parameter at the output parameter index, `ans := <its name>`. -/
theorem generateNormalTestCode_answer (testCaseOutputMark : GoString) (q : QuestionData) :
    (∀ r : Return, q.MetaData.Return = some r → r.Typ ≠ "void".toList →
      generateNormalTestCode testCaseOutputMark q = some (join '\n'
        (["func main() \x7b".toList, "\tstdin := bufio.NewReader(os.Stdin)".toList] ++
          (q.MetaData.Params.map readParamLine ++
            ["\tans := ".toList ++ callText q.MetaData.Name q.MetaData.Params]) ++
          [printLine testCaseOutputMark "Serialize(ans)".toList, "\x7d".toList, "".toList]),
        none)) ∧
    (∀ p : Param,
      (q.MetaData.Return = none ∨
        ∃ r, q.MetaData.Return = some r ∧ r.Typ = "void".toList) →
      index q.MetaData.Params q.MetaData.Output.ParamIndex = some p →
      generateNormalTestCode testCaseOutputMark q = some (join '\n'
        (["func main() \x7b".toList, "\tstdin := bufio.NewReader(os.Stdin)".toList] ++
          (q.MetaData.Params.map readParamLine ++
            ["\t".toList ++ callText q.MetaData.Name q.MetaData.Params,
              "\tans := ".toList ++ p.Name]) ++
          [printLine testCaseOutputMark "Serialize(ans)".toList, "\x7d".toList, "".toList]),
        none)) :=
  ⟨fun r hr hv => generateNormalTestCode_value testCaseOutputMark q r hr hv,
    fun p hr hp => generateNormalTestCode_output testCaseOutputMark q p hr hp⟩

set_option maxRecDepth 1000000 in
/-- Witness for C13: `rotate(nums, k)` returns nothing and its answer is
`nums`, the parameter at index 0. -/
theorem generateNormalTestCode_answer_witness :
    generateNormalTestCode "output:".toList rotateQuestion = some (
      ("func main() \x7b\n\tstdin := bufio.NewReader(os.Stdin)\n" ++
        "\tnums := Deserialize[[]int](ReadLine(stdin))\n" ++
        "\tk := Deserialize[int](ReadLine(stdin))\n" ++
        "\trotate(nums, k)\n" ++
        "\tans := nums\n" ++
        "\tfmt.Println(\"output: \" + Serialize(ans))\n\x7d\n").toList, none) :=
  ((generateNormalTestCode_answer "output:".toList rotateQuestion).2
    ⟨"nums".toList, "integer[]".toList⟩ (Or.inr ⟨⟨"void".toList⟩, rfl, rfl⟩)
    rfl).trans (by decide)

/-- C14, as stated, fails: for a question without result whose output
parameter index is 2 with two parameters, `generateNormalTestCode` does not
return an error; the lookup `paramNames[2]` panics and nothing is returned. -/
theorem generateNormalTestCode_counterexample :
    generateNormalTestCode "output:".toList badIndexQuestion = none ∧
    ¬ ∃ (content err : GoString),
      generateNormalTestCode "output:".toList badIndexQuestion = some (content, some err) := by
  have h : generateNormalTestCode "output:".toList badIndexQuestion = none := by decide
  refine ⟨h, ?_⟩
  rintro ⟨content, err, he⟩
  rw [h] at he
  exact absurd he (by simp)

/-- C14, amended: for a direct-call question with no return or a `void` return
whose output parameter index is negative or not less than the number of
parameters, `generateNormalTestCode` produces no driver and no error value: the
lookup of the parameter name panics while the driver is generated. -/
theorem generateNormalTestCode_index_out_of_range (testCaseOutputMark : GoString)
    (q : QuestionData)
    (hr : q.MetaData.Return = none ∨ ∃ r, q.MetaData.Return = some r ∧ r.Typ = "void".toList)
    (hidx : q.MetaData.Output.ParamIndex < 0 ∨
      (q.MetaData.Params.length : Int) ≤ q.MetaData.Output.ParamIndex) :
    generateNormalTestCode testCaseOutputMark q = none :=
  generateNormalTestCode_panic testCaseOutputMark q hr hidx

/-- Witness for C14: index 2 with two parameters. -/
theorem generateNormalTestCode_index_out_of_range_witness :
    generateNormalTestCode "output:".toList badIndexQuestion = none :=
  generateNormalTestCode_index_out_of_range "output:".toList badIndexQuestion
    (Or.inr ⟨⟨"void".toList⟩, rfl, rfl⟩) (Or.inr (by decide))

/-- C15: for every interactive question with at least one method, the driver
of `generateSystemDesignTestCode` seeds the output list with one `null` entry,
builds the object, and contains in declared method order exactly one branch
`case "<method name>":` per declared method; each branch deserializes the
declared parameters by position from its argument group, calls
`obj.<title-cased method name>(...)`, and appends `Serialize` of the result
when the return type is neither empty nor `void` and the literal `null`
otherwise (see `methodBranchLines`); the driver ends by printing the sentinel
token, one space, and `JoinArray(output)`.  With `strings.Title` on an ASCII
name made of letters, digits and underscores, the title-cased name is the name
with its first letter in upper case. -/
theorem generateSystemDesignTestCode_driver (Title : GoString → GoString)
    (testCaseOutputMark : GoString) (q : QuestionData) (hm : q.MetaData.Methods ≠ []) :
    generateSystemDesignTestCode Title testCaseOutputMark q = some (join '\n'
      (["func main() \x7b".toList, "\tstdin := bufio.NewReader(os.Stdin)".toList,
          "\tops := Deserialize[[]string](ReadLine(stdin))".toList,
          "\tparams := MustSplitArray(ReadLine(stdin))".toList,
          "\toutput := make([]string, 0, len(ops))".toList,
          "\toutput = append(output, \"null\")".toList, "".toList] ++
        constructLines q.MetaData.Constructor.Params ++
        ["".toList, "\tfor i := 1; i < len(ops); i++ \x7b".toList,
          "\t\tswitch ops[i] \x7b".toList] ++
        (q.MetaData.Methods.map (methodBranchLines Title)).flatten ++
        ["\t\t\x7d".toList, "\t\x7d".toList,
          "\tfmt.Println(\"".toList ++ testCaseOutputMark ++ " \" + JoinArray(output))".toList,
          "\x7d".toList, "".toList]), none) ∧
    (∀ (c : Char) (cs : GoString), (∀ x ∈ c :: cs, isSeparatorASCII x = false) →
      toGoFuncName titleASCII (c :: cs) = c.toUpper :: cs) := by
  constructor
  · have hC := methodBranchLines_flatten_ne_nil Title q.MetaData.Methods hm
    have hprint : "\tfmt.Println(\"".toList ++ testCaseOutputMark ++
        " \" + JoinArray(output))".toList = printLine testCaseOutputMark "JoinArray(output)".toList := by
      simp [printLine, List.append_assoc]
    rw [hprint, ← systemDesignTestContent_eq _ testCaseOutputMark _ _
      (prepareCode_eq q.MetaData.Constructor.Params) hC]
    unfold generateSystemDesignTestCode
    simp only [methodsLoop_eq, List.nil_append]
    rw [show ("".toList : GoString) = [] from rfl, List.nil_append,
      terminated_eq_join _ hC, sliceTo_append_singleton]
  · intro c cs h
    unfold toGoFuncName titleASCII
    rw [titleLoop, titleLoop_of_not_separator c cs (h c (by simp))
      (fun x hx => h x (List.mem_cons_of_mem _ hx))]
    rfl

set_option maxRecDepth 1000000 in
/-- Witness for C15: the driver of a class with `push(x)` and `pop()`. -/
theorem generateSystemDesignTestCode_driver_witness :
    generateSystemDesignTestCode titleASCII "output:".toList stackQuestion = some (
      ("func main() \x7b\n\tstdin := bufio.NewReader(os.Stdin)\n" ++
        "\tops := Deserialize[[]string](ReadLine(stdin))\n" ++
        "\tparams := MustSplitArray(ReadLine(stdin))\n" ++
        "\toutput := make([]string, 0, len(ops))\n" ++
        "\toutput = append(output, \"null\")\n\n" ++
        "\tconstructorParams := MustSplitArray(params[0])\n" ++
        "\tn := Deserialize[int](constructorParams[0])\n" ++
        "\tobj := Constructor(n)\n\n" ++
        "\tfor i := 1; i < len(ops); i++ \x7b\n\t\tswitch ops[i] \x7b\n" ++
        "\t\tcase \"push\":\n\t\t\tmethodParams := MustSplitArray(params[i])\n" ++
        "\t\t\tx := Deserialize[int](methodParams[0])\n\t\t\tobj.Push(x)\n" ++
        "\t\t\toutput = append(output, \"null\")\n" ++
        "\t\tcase \"pop\":\n\t\t\tans := Serialize(obj.Pop())\n" ++
        "\t\t\toutput = append(output, ans)\n" ++
        "\t\t\x7d\n\t\x7d\n\tfmt.Println(\"output: \" + JoinArray(output))\n\x7d\n").toList, none) :=
  ((generateSystemDesignTestCode_driver titleASCII "output:".toList stackQuestion
    (List.cons_ne_nil _ _)).1).trans (by decide)

/-- C20: for every code and every non-interactive question such that each line
starting with `func ` has a `{` to the right of its last `)`, `addNamedReturn`
is defined, and applying it to its own output is defined and returns that
output unchanged. -/
theorem addNamedReturn_idempotent (code : GoString) (q : QuestionData)
    (hq : q.MetaData.SystemDesign = false)
    (hdef : ∀ line ∈ split '\n' code, hasPrefix line "func ".toList = true →
      lastIndex line ')' < lastIndex line '{') :
    ∃ out, addNamedReturn code q = some out ∧ addNamedReturn out q = some out := by
  obtain ⟨st, hloop, hkept⟩ := addNamedReturnLoop_keeps q hq (split '\n' code) ([], 0)
    (fun l hl => not_mem_of_mem_split '\n' code l hl) hdef (by simp)
  refine ⟨join '\n' st.1, ?_, ?_⟩
  · unfold addNamedReturn
    rw [hloop]
    rfl
  · exact addNamedReturn_of_kept q _ (kept_lines_of_join st.1 hkept)

set_option maxRecDepth 100000 in
/-- Witness for C20: the output for `func f(a int) int {`, an empty line and `}`
is a fixed point. -/
theorem addNamedReturn_idempotent_witness :
    (∃ out, addNamedReturn "func f(a int) int \x7b\n\n\x7d".toList plainQuestion = some out ∧
      addNamedReturn out plainQuestion = some out) ∧
    addNamedReturn "func f(a int) (ans int) \x7b\n\n\treturn\n\x7d".toList plainQuestion
      = some "func f(a int) (ans int) \x7b\n\n\treturn\n\x7d".toList :=
  ⟨addNamedReturn_idempotent "func f(a int) int \x7b\n\n\x7d".toList plainQuestion rfl (by decide),
    by decide⟩

/-! ## Claims on the default pipeline -/

set_option maxRecDepth 100000 in
/-- C18, as stated, fails for two kinds of head that start with `func `.  When
the parameter list of the template is spread over several lines, the first
line has no `)` and no `{` and `addNamedReturn` panics; when the head has no
`(`, the rewritten line has exactly one `(`, `addMod` reads an empty result
type after the last `)` and inserts no guard. -/
theorem defaultPipeline_counterexample :
    (addNamedReturn ("func f(\n\ta int,\n" ++ ") int \x7b\n\n\x7d").toList plainQuestion).bind
        (fun c => addMod (fun _ => "return it modulo 1e9+7".toList) (fun _ => true) c
          plainQuestion) = none ∧
    (addNamedReturn ("func f" ++ ") int \x7b\n\n\x7d").toList plainQuestion).bind
        (fun c => addMod (fun _ => "return it modulo 1e9+7".toList) (fun _ => true) c
          plainQuestion)
      = some "func f) (ans int) \x7b\n\tconst mod int = 1e9 + 7\n\n\n\treturn\n\x7d".toList := by
  decide

/-- C18, amended: in the default order, `addNamedReturn` then `addMod`, for a
non-interactive question needing a modulus and a template `<head>) T {`, empty
line, `}` whose head starts with `func `, has no line break and contains a `(`,
and whose result type `T` is `int`, `int64` or `int32`, the result is exactly
`<head>) (ans T) {`, the constant declaration, two empty lines, the guard, the
bare return and `}`. -/
theorem defaultPipeline_integer (getContent : QuestionData → GoString)
    (needsMod : GoString → Bool) (q : QuestionData) (head T : GoString)
    (hq : q.MetaData.SystemDesign = false) (hm : needsMod (getContent q) = true)
    (hhead : hasPrefix head "func ".toList = true)
    (hnl : '\n' ∉ head) (hparen : '(' ∈ head)
    (hT : T = "int".toList ∨ T = "int64".toList ∨ T = "int32".toList) :
    (addNamedReturn (head ++ ") ".toList ++ T ++ " \x7b\n\n\x7d".toList) q).bind
        (fun c => addMod getContent needsMod c q) =
      some (head ++ ") (ans ".toList ++ T ++
        (") \x7b\n\tconst mod int = 1e9 + 7\n\n\n" ++
          "\tans = (ans%mod + mod) % mod\n\treturn\n\x7d").toList) := by
  rcases hT with e | e | e <;> subst e <;>
    exact defaultPipeline_aux getContent needsMod q head _ hq hm hhead hnl hparen
      (by decide) (by decide) (by decide) (by decide) (by decide) (by decide) (by decide)
      (by decide)

set_option maxRecDepth 100000 in
/-- Witness for C18: the template of `twoSum` with result type `int64`. -/
theorem defaultPipeline_integer_witness :
    (addNamedReturn "func twoSum(nums []int, target int) int64 \x7b\n\n\x7d".toList
        plainQuestion).bind
        (fun c => addMod (fun _ => "return it modulo 1e9+7".toList) (fun _ => true) c
          plainQuestion) =
      some ("func twoSum(nums []int, target int) (ans int64) \x7b\n" ++
        "\tconst mod int = 1e9 + 7\n\n\n" ++
        "\tans = (ans%mod + mod) % mod\n\treturn\n\x7d").toList :=
  (defaultPipeline_integer (fun _ => "return it modulo 1e9+7".toList) (fun _ => true)
    plainQuestion "func twoSum(nums []int, target int".toList "int64".toList rfl rfl
    (by decide) (by decide) (by decide) (by decide))

/-! ## Claims on the slice of the case code -/

/-- C21: in `generateSystemDesignTestCode` the slice
`callCode[:len(callCode)-1]` is in range if and only if the question declares
at least one method, and so a driver is returned if and only if it does; for an
empty method list the bound is `-1` and no driver is returned. -/
theorem generateSystemDesignTestCode_slice (Title : GoString → GoString)
    (testCaseOutputMark : GoString) (q : QuestionData) :
    ((sliceTo (methodsLoop Title q.MetaData.Methods "".toList)
        (((methodsLoop Title q.MetaData.Methods "".toList).length : Int) - 1)).isSome = true ↔
      q.MetaData.Methods ≠ []) ∧
    ((generateSystemDesignTestCode Title testCaseOutputMark q).isSome = true ↔
      q.MetaData.Methods ≠ []) ∧
    (q.MetaData.Methods = [] →
      ((methodsLoop Title q.MetaData.Methods "".toList).length : Int) - 1 = -1 ∧
      generateSystemDesignTestCode Title testCaseOutputMark q = none) := by
  have hempty : q.MetaData.Methods = [] →
      ((methodsLoop Title q.MetaData.Methods "".toList).length : Int) - 1 = -1 ∧
      sliceTo (methodsLoop Title q.MetaData.Methods "".toList)
        (((methodsLoop Title q.MetaData.Methods "".toList).length : Int) - 1) = none := by
    intro h
    rw [h]
    exact ⟨rfl, rfl⟩
  have hiff : (sliceTo (methodsLoop Title q.MetaData.Methods "".toList)
        (((methodsLoop Title q.MetaData.Methods "".toList).length : Int) - 1)).isSome = true ↔
      q.MetaData.Methods ≠ [] := by
    constructor
    · intro hs hm
      rw [(hempty hm).2] at hs
      exact absurd hs (by simp)
    · intro hm
      rw [methodsLoop_slice_of_ne_nil Title _ hm]
      rfl
  refine ⟨hiff, ?_, ?_⟩
  · rw [generateSystemDesignTestCode_isSome_iff]
    exact hiff
  · intro hm
    refine ⟨(hempty hm).1, ?_⟩
    have h := generateSystemDesignTestCode_isSome_iff Title testCaseOutputMark q
    rw [(hempty hm).2] at h
    cases hg : generateSystemDesignTestCode Title testCaseOutputMark q with
    | none => rfl
    | some v =>
      rw [hg] at h
      exact absurd h (by simp)

/-- Witness for C21: an interactive question without methods gets no driver,
one with the methods `push` and `pop` gets one. -/
theorem generateSystemDesignTestCode_slice_witness :
    generateSystemDesignTestCode titleASCII "output:".toList noMethodQuestion = none ∧
    (generateSystemDesignTestCode titleASCII "output:".toList stackQuestion).isSome = true :=
  ⟨((generateSystemDesignTestCode_slice titleASCII "output:".toList noMethodQuestion).2.2 rfl).2,
    (generateSystemDesignTestCode_slice titleASCII "output:".toList stackQuestion).2.1.mpr
      (List.cons_ne_nil _ _)⟩

/-! ## Claims on the default configuration -/

/-- C22: every modifier name in the default configuration is a key of
`goBuiltinModifiers`: the names of the Go list, which are
`removeUselessComments`, `changeReceiverName`, `addNamedReturn` and `addMod`,
the name of the language-independent list, which is `removeUselessComments`,
and the names of the lists of the other languages, which are empty. -/
theorem default_modifiers_registered (removeUselessComments : ModifierFunc)
    (getContent : QuestionData → GoString) (needsMod : GoString → Bool) :
    Default.Code.Go.BaseLangConfig.Modifiers.map (fun m => m.Name) =
      ["removeUselessComments".toList, "changeReceiverName".toList, "addNamedReturn".toList,
        "addMod".toList] ∧
    Default.Code.Modifiers.map (fun m => m.Name) = ["removeUselessComments".toList] ∧
    (∀ m ∈ Default.Code.Modifiers ++ Default.Code.Go.BaseLangConfig.Modifiers ++
        Default.Code.Python.Modifiers ++ Default.Code.Cpp.Modifiers ++
        Default.Code.Java.Modifiers ++ Default.Code.Rust.Modifiers,
      (List.lookup m.Name
        (goBuiltinModifiers removeUselessComments getContent needsMod)).isSome = true) := by
  refine ⟨rfl, rfl, ?_⟩
  intro m hm
  have hall : (Default.Code.Modifiers ++ Default.Code.Go.BaseLangConfig.Modifiers ++
        Default.Code.Python.Modifiers ++ Default.Code.Cpp.Modifiers ++
        Default.Code.Java.Modifiers ++ Default.Code.Rust.Modifiers).all
      (fun m => (List.lookup m.Name
        (goBuiltinModifiers removeUselessComments getContent needsMod)).isSome) = true := rfl
  exact List.all_eq_true.mp hall m hm

/-- Instance of C22: the name `addMod` of the default Go list is found in the
registry, a name that is not a built-in modifier is not. -/
theorem default_modifiers_registered_witness :
    (List.lookup "addMod".toList
      (goBuiltinModifiers (fun code _ => some code) (fun _ => []) (fun _ => false))).isSome
        = true ∧
    (List.lookup "sortImports".toList
      (goBuiltinModifiers (fun code _ => some code) (fun _ => []) (fun _ => false))).isSome
        = false :=
  ⟨(default_modifiers_registered (fun code _ => some code) (fun _ => []) (fun _ => false)).2.2
    ⟨"addMod".toList, "".toList⟩ (by decide), rfl⟩

/-- C23: the default configuration passes `verify`, unchanged, and so does the
configuration `createConfigFiles` writes for the default configuration with the
template `us` (site `https://leetcode.com`, language `en`) and with the
template `cn` (site `https://leetcode.cn`, language `zh`). -/
theorem default_passes_verify (vaultHeader : GoString)
    (Decrypt : GoString → GoString × Option GoString) (homeConfigDir : GoString) :
    verify vaultHeader Decrypt Default = (Default, none) ∧
    ((createConfigFilesGlobal homeConfigDir "us".toList Default).LeetCode.Site
        = "https://leetcode.com".toList ∧
      (createConfigFilesGlobal homeConfigDir "us".toList Default).Language = "en".toList ∧
      (verify vaultHeader Decrypt
        (createConfigFilesGlobal homeConfigDir "us".toList Default)).2 = none) ∧
    ((createConfigFilesGlobal homeConfigDir "cn".toList Default).LeetCode.Site
        = "https://leetcode.cn".toList ∧
      (createConfigFilesGlobal homeConfigDir "cn".toList Default).Language = "zh".toList ∧
      (verify vaultHeader Decrypt
        (createConfigFilesGlobal homeConfigDir "cn".toList Default)).2 = none) :=
  ⟨rfl, ⟨rfl, rfl, rfl⟩, ⟨rfl, rfl, rfl⟩⟩

end Leetgo
